import Mathlib

/-!
Verification development for the HTML-to-DOCX converter
(`html_docx_converter_custom.py`).

The Python module walks a BeautifulSoup parse tree and emits a python-docx
document.  The shallow embedding below models

* the parse tree as the inductive `HtmlNode` (tag name, attribute list,
  ordered children; text nodes carry their string payload),
* Python strings by Lean `String` with explicit character-list
  implementations of the string operations the source uses,
* the mutable `styles` dictionary threaded through the recursion as an
  association list that is passed in and returned (Python mutates one shared
  `dict` object in place, so callees' writes are visible to callers and to
  later siblings — returning the updated list models exactly that),
* the output document as a trace of emission events (`Ev`): paragraph
  creations, runs, bookmarks, hyperlinks, tables.  Paragraph objects are
  identified by the numeric id assigned when their creation event is emitted,
* Python exceptions as `Except Unit`, and Python's occasional use of `None`
  as an ordinary return value (e.g. `is_list_continued`) as an `Option`
  inside the `.ok` constructor,
* the external collaborators (network fetch, image codec) as boolean
  oracles, per the reduced scope of the image-handling component.

General recursion over the tree is fuel-indexed (`fuel = 0` is modelled as
an error), so every definition is a computable structural recursion that the
kernel can evaluate on concrete inputs.
-/

namespace HtmlDocx

/-- Parse-tree node: either a text node (BeautifulSoup `NavigableString`)
or an element with tag name, attribute mapping and ordered children. -/
inductive HtmlNode where
  | text (s : String)
  | elem (tag : String) (attrs : List (String × String)) (children : List HtmlNode)

/-- Tag name of a node; `none` for a text node (BeautifulSoup gives
`NavigableString.name == None`). -/
def nodeName : HtmlNode → Option String
  | .text _ => none
  | .elem t _ _ => some t

/-- Children of a node (empty for text nodes). -/
def childrenOf : HtmlNode → List HtmlNode
  | .text _ => []
  | .elem _ _ cs => cs

/-- Association-list lookup used for tag attribute access (`tag["k"]`,
`tag.get("k")`, `"k" in tag.attrs`). -/
def lookupA {α : Type} : List (String × α) → String → Option α
  | [], _ => none
  | (k, v) :: rest, key => if k = key then some v else lookupA rest key

/-- Association-list insert-or-replace: Python `d[k] = v` keeps an existing
key's position and appends a new key at the end. -/
def setA {α : Type} : List (String × α) → String → α → List (String × α)
  | [], k, v => [(k, v)]
  | (k', v') :: rest, k, v => if k' = k then (k, v) :: rest else (k', v') :: setA rest k v

/-- Attribute access `tag.get(k)` / `tag[k]` (the latter raises `KeyError`
when absent, which call sites model separately). -/
def getAttr (n : HtmlNode) (k : String) : Option String :=
  match n with
  | .text _ => none
  | .elem _ attrs _ => lookupA attrs k

/-- Python `"k" in tag.attrs`. -/
def hasAttr (n : HtmlNode) (k : String) : Bool := (getAttr n k).isSome

/-- Does the node have the given tag name (`tag.name == nm`)? -/
def isNamed (nm : String) (n : HtmlNode) : Bool := nodeName n == some nm

/-- Direct `<li>` children: `list_tag.find_all("li", recursive=False)`. -/
def directLis (n : HtmlNode) : List HtmlNode := (childrenOf n).filter (isNamed ("li"))

/-! ### Python string primitives, implemented on the character list -/

/-- Python whitespace for `str.strip` / the regex class `\s`
(ASCII subset; the source never feeds non-ASCII whitespace). -/
def pyWs (c : Char) : Bool :=
  c == ' ' || c == '\t' || c == '\n' || c == '\r' || c == '\x0b' || c == '\x0c'

/-- Python `str.strip()` (both ends). -/
def pyStrip (s : String) : String :=
  .mk (((s.data.dropWhile pyWs).reverse.dropWhile pyWs).reverse)

/-- Python `str.lstrip("#")`: drop every leading `#`. -/
def lstripHash (s : String) : String := .mk (s.data.dropWhile (fun c => c == '#'))

/-- Python `sep in s` for a one-character separator. -/
def hasChar (c : Char) (s : String) : Bool := s.data.any (fun x => x == c)

/-- Python `s.split(c)` on the character list: `"" ↦ [""]`,
`"a;b" ↦ ["a", "b"]`, `";" ↦ ["", ""]`. -/
def splitChar (sep : Char) : List Char → List (List Char)
  | [] => [[]]
  | c :: rest =>
    let r := splitChar sep rest
    if c == sep then [] :: r
    else
      match r with
      | h :: t => (c :: h) :: t
      | [] => [[c]]

/-- Python substring test `needle in hay`. -/
def isSubstr (needle hay : String) : Bool :=
  hay.data.tails.any (fun t => needle.data.isPrefixOf t)

/-- Numeric value of a list of decimal digits. -/
def digitsVal (ds : List Char) : Nat :=
  ds.foldl (fun a c => a * 10 + (c.toNat - 48)) 0

/-- Python `int(s)` on a decimal string: optional surrounding whitespace,
optional sign, then at least one digit.  (Python additionally accepts
underscore digit separators, which HTML attribute values never use.) -/
def pyInt (s : String) : Option Int :=
  let l := ((s.data.dropWhile pyWs).reverse.dropWhile pyWs).reverse
  match l with
  | '-' :: ds =>
    if ds ≠ [] ∧ ds.all Char.isDigit then some (-(digitsVal ds : Int)) else none
  | '+' :: ds =>
    if ds ≠ [] ∧ ds.all Char.isDigit then some ((digitsVal ds : Int)) else none
  | ds =>
    if ds ≠ [] ∧ ds.all Char.isDigit then some ((digitsVal ds : Int)) else none

/-! ### `skip_crlf` -/

/-- Source `skip_crlf`: true exactly for a text node whose whole content is
`"\n"` or `"\r"`; any element (`not isinstance(content, str)`) gives false. -/
def skip_crlf (n : HtmlNode) : Bool :=
  match n with
  | .text s => s == "\n" || s == "\r"
  | .elem _ _ _ => false

/-! ### `rgb_to_hex` -/

/-- Greedy `\d{1,3}` followed by a non-digit (equivalent to the regex with
its backtracking, because the pattern's next token after each `\d{1,3}` is a
literal non-digit): returns the numeral's value and the rest. -/
def digits13 (l : List Char) : Option (Nat × List Char) :=
  let ds := l.takeWhile Char.isDigit
  if ds.length = 0 ∨ 3 < ds.length then none
  else some (digitsVal ds, l.drop ds.length)

/-- Expect one literal character. -/
def expectChar (c : Char) : List Char → Option (List Char)
  | [] => none
  | x :: rest => if x == c then some rest else none

/-- Deterministic implementation of
`re.match(r"rgb\((\d{1,3}),\s*(\d{1,3}),\s*(\d{1,3})\)", s)`:
anchored at the start, trailing characters ignored. -/
def rgbMatch (s : String) : Option (Nat × Nat × Nat) :=
  match s.data with
  | 'r' :: 'g' :: 'b' :: '(' :: rest =>
    match digits13 rest with
    | none => none
    | some (r, rest1) =>
      match expectChar ',' rest1 with
      | none => none
      | some rest2 =>
        match digits13 (rest2.dropWhile pyWs) with
        | none => none
        | some (g, rest3) =>
          match expectChar ',' rest3 with
          | none => none
          | some rest4 =>
            match digits13 (rest4.dropWhile pyWs) with
            | none => none
            | some (b, rest5) =>
              match expectChar ')' rest5 with
              | none => none
              | some _ => some (r, g, b)
  | _ => none

/-- Uppercase hexadecimal digit. -/
def hexDigit (n : Nat) : Char :=
  if n < 10 then Char.ofNat (48 + n) else Char.ofNat (55 + n)

/-- Hexadecimal digits of `n` (most significant first, empty for 0);
fuel-indexed so the recursion is structural (`fuel = n` always suffices). -/
def hexCharsFuel : Nat → Nat → List Char
  | 0, _ => []
  | _ + 1, 0 => []
  | f + 1, n => hexCharsFuel f (n / 16) ++ [hexDigit (n % 16)]

/-- Python `"{:02X}".format(n)`: uppercase hex, zero-padded to width 2. -/
def fmt02X (n : Nat) : List Char :=
  let h := if n = 0 then ['0'] else hexCharsFuel n n
  if h.length < 2 then '0' :: h else h

/-- Source `rgb_to_hex`: `rgb(r,g,b)` to six (more if a component exceeds
255) uppercase hex digits; anything the regex does not match is returned
unchanged. -/
def rgb_to_hex (rgb : String) : String :=
  match rgbMatch rgb with
  | some (r, g, b) => .mk (fmt02X r ++ fmt02X g ++ fmt02X b)
  | none => rgb

/-! ### `parse_styles` -/

/-- Value stored for one declaration:
`v.strip().lstrip("#") if "#" in v else rgb_to_hex(v.strip())`. -/
def styleEntryVal (v : List Char) : String :=
  if (List.any v (fun c => c == '#')) then lstripHash (pyStrip (.mk v))
  else rgb_to_hex (pyStrip (.mk v))

/-- Loop of `parse_styles` over the `;`-separated items.  An item without a
`:` is skipped; an item with two or more `:` makes the tuple unpacking
`k, v = style_itm.split(":")` raise `ValueError` (modelled as `.error`). -/
def parseStyleItems (acc : List (String × String)) :
    List (List Char) → Except Unit (List (String × String))
  | [] => .ok acc
  | itm :: rest =>
    if List.any itm (fun c => c == ':') then
      match splitChar ':' itm with
      | [k, v] => parseStyleItems (setA acc (pyStrip (.mk k)) (styleEntryVal v)) rest
      | _ => .error ()
    else parseStyleItems acc rest

/-- Source `parse_styles`.  The argument is `None` (no `style` attribute) or
the attribute string; `if not style_attr` catches both `None` and `""`. -/
def parse_styles (style_attr : Option String) : Except Unit (List (String × String)) :=
  match style_attr with
  | none => .ok []
  | some sa => if sa = "" then .ok [] else parseStyleItems [] (splitChar ';' sa.data)

/-! ### The styles dictionary -/

/-- Value in the shared `styles` dict: booleans for bold/italic/underline,
strings for parsed declarations, and the nested span-style dict. -/
inductive StyleVal where
  | b (v : Bool)
  | s (v : String)
  | d (m : List (String × String))
deriving DecidableEq, Repr

/-- The shared mutable `styles` dictionary. -/
abbrev StyleDict := List (String × StyleVal)

/-- View of a `parse_styles` result as a `styles` dict (every parsed value
is a string). -/
def toStyleDict (l : List (String × String)) : StyleDict :=
  l.map (fun kv => (kv.1, .s kv.2))

/-- Key of `check_style_parent`'s `tag_names` mapping: a single tag or the
tuple of two qualifying tags. -/
inductive TagKey where
  | one (t : String)
  | two (t1 t2 : String)

/-- Source `tuple_check`: force the flag to whether either qualifying tag
occurs among the ancestors. -/
def tuple_check (t1 t2 : String) (style : String) (ancestors : List String)
    (style_d : StyleDict) : StyleDict :=
  if t1 ∉ ancestors ∧ t2 ∉ ancestors then setA style_d style (.b false)
  else setA style_d style (.b true)

/-- Source `check_style_parent`: drop styles whose qualifying tag is not an
ancestor of the current tag (dict iteration order is insertion order, hence
the list). -/
def check_style_parent (ancestors : List String) (style_d : StyleDict)
    (tag_names : List (TagKey × String)) : StyleDict :=
  tag_names.foldl
    (fun d kv =>
      match kv with
      | (.two t1 t2, style) => tuple_check t1 t2 style ancestors d
      | (.one tag, style) =>
        if tag ∉ ancestors then setA d style (if tag = "span" then .d [] else .b false)
        else d)
    style_d

/-! ### `add_text_color` -/

/-- Emitted docx run: text plus the tri-state formatting properties
(`none` = property never assigned, inherits). -/
structure RunE where
  text : String
  bold : Option Bool
  italic : Option Bool
  underline : Option Bool
  color : Option (Nat × Nat × Nat)
deriving DecidableEq, Repr

/-- Run with only text set. -/
def plainRun (text : String) : RunE :=
  { text := text, bold := none, italic := none, underline := none, color := none }

/-- Hex digit value for Python `int(c, 16)`. -/
def hexDigitVal (c : Char) : Option Nat :=
  if '0' ≤ c ∧ c ≤ '9' then some (c.toNat - 48)
  else if 'a' ≤ c ∧ c ≤ 'f' then some (c.toNat - 87)
  else if 'A' ≤ c ∧ c ≤ 'F' then some (c.toNat - 55)
  else none

/-- Python `int(s, 16)` on a slice of length ≤ 2 (`text_color[i:i+2]`);
`int("", 16)` raises, modelled as `none`.  (Python also accepts surrounding
whitespace and a sign, never produced by color strings.) -/
def hexPairVal (l : List Char) : Option Nat :=
  match l with
  | [] => none
  | [a] => hexDigitVal a
  | [a, b] =>
    match hexDigitVal a, hexDigitVal b with
    | some x, some y => some (16 * x + y)
    | _, _ => none
  | _ => none

/-- The `rgb = tuple(int(text_color[i:i+2], 16) for i in (0, 2, 4))`
computation; `none` models the `ValueError` the surrounding `try` catches. -/
def parseRunColor (tc : String) : Option (Nat × Nat × Nat) :=
  match hexPairVal (tc.data.take 2), hexPairVal ((tc.data.drop 2).take 2),
      hexPairVal ((tc.data.drop 4).take 2) with
  | some r, some g, some b => some (r, g, b)
  | _, _, _ => none

/-- Span color, if any: `styles.get("span", "")` followed by the `"color"`
membership test and `.get("color", "000000")`.  The `"span"` entry written
by the program is always a dict. -/
def spanColorVal (styles : StyleDict) : Option String :=
  match lookupA styles ("span") with
  | some (.d m) => lookupA m ("color")
  | _ => none

/-- Boolean flag lookup (`styles["bold"]` etc.); the program only ever
stores booleans under these keys. -/
def lookupB (styles : StyleDict) (k : String) : Option Bool :=
  match lookupA styles k with
  | some (.b v) => some v
  | _ => none

/-- The `"font-family" in styles and "bold" in styles.get("font-family")`
test; a `font-family` entry always holds a string (it comes from
`parse_styles`). -/
def ffBold (styles : StyleDict) : Bool :=
  match lookupA styles ("font-family") with
  | some (.s v) => isSubstr ("bold") v
  | _ => false

/-- Source `add_text_color`: build the run for a styled text.  A malformed
span color value raises `ValueError` inside the `try`, which skips every
subsequent property assignment, leaving a plain run. -/
def add_text_color (styles : StyleDict) (text : String) : RunE :=
  if styles.isEmpty then plainRun text
  else
    let flags := fun (col : Option (Nat × Nat × Nat)) =>
      { text := text
        bold := if ffBold styles then some true else lookupB styles ("bold")
        italic := lookupB styles ("italic")
        underline := lookupB styles ("underline")
        color := col }
    match spanColorVal styles with
    | some tc =>
      match parseRunColor tc with
      | none => plainRun text
      | some rgbv => flags (some rgbv)
    | none => flags none

/-! ### `is_list_continued` -/

/-- Inner/outer `li` value-comparison loops of `is_list_continued`.  The
outer loop advances only when the following list has no `<li>` at all (the
inner loop then never runs); falling off the end returns Python `None`,
modelled as `.ok none`.  `int()` on a non-numeral raises (`.error`). -/
def liValueLoop (next_sibling : HtmlNode) : List HtmlNode → Except Unit (Option Bool)
  | [] => .ok none
  | li :: rest =>
    match getAttr li ("value") with
    | none => .ok (some false)
    | some current_li_val =>
      match directLis next_sibling with
      | [] => liValueLoop next_sibling rest
      | sib_li :: _ =>
        match getAttr sib_li ("value") with
        | none => .ok (some false)
        | some sv =>
          match pyInt sv, pyInt current_li_val with
          | some a, some b => .ok (some (decide (a - b = 1)))
          | _, _ => .error ()

/-- Source `is_list_continued`.  `prev_sibs`/`next_sibs` are the element's
siblings before/after it in document order; `find_previous_siblings("ol")`
returns the earlier ones nearest-first (hence the `reverse`), and both are
filtered to `ol`.  The Python `elif next_sibling.name != "ol" …` branch is
dead (the filter guarantees `ol`) and the `if`-chain falls through to the
value loop when neither list declares `start`. -/
def is_list_continued (prev_sibs next_sibs : List HtmlNode) (list_tag : HtmlNode) :
    Except Unit (Option Bool) :=
  let next_tags := next_sibs.filter (isNamed ("ol"))
  let prev_tags := (prev_sibs.reverse).filter (isNamed ("ol"))
  if next_tags.length = 0 ∧ prev_tags.length = 0 then .ok (some false)
  else if 0 < prev_tags.length ∧ next_tags.length = 0 then .ok (some true)
  else
    match next_tags with
    | [] => .error ()
    | next_sibling :: _ =>
      if hasAttr next_sibling ("start") ∧ ¬ hasAttr list_tag ("start") then .ok (some false)
      else if hasAttr next_sibling ("start") ∧ hasAttr list_tag ("start") then .ok (some true)
      else if ¬ hasAttr next_sibling ("start") ∧ hasAttr list_tag ("start") then .ok (some true)
      else liValueLoop next_sibling (directLis list_tag)

/-! ### `add_images` -/

/-- Result of `add_images`: a decoded image buffer or the error text that is
substituted for it. -/
inductive ImgResult where
  | image
  | errText (msg : String)
deriving DecidableEq, Repr

/-- Character-list prefix test (structural, so it computes in the kernel). -/
def startsWithAux : List Char → List Char → Bool
  | [], _ => true
  | _ :: _, [] => false
  | c :: cs, d :: ds => c == d && startsWithAux cs ds

/-- Python `str.startswith`. -/
def pyStartsWith (s pre : String) : Bool := startsWithAux pre.data s.data

/-- Source `add_images`.  The network fetch and the image codec are external
collaborators, modelled as the two boolean oracles: `network_ok` covers
`requests.get`/`raise_for_status`, `decode_ok` covers base64 decoding,
`Image.open`, `thumbnail` and `save`.  Every failure inside the `try` lands
in the same `except`, which picks the error text by URL scheme; a URL that
is neither `https` nor `data` leaves `image = None` and the `thumbnail`
call raises `AttributeError`, caught by the same handler. -/
def add_images (img : HtmlNode) (network_ok decode_ok : Bool) : ImgResult :=
  match getAttr img ("src") with
  | none => .errText ("Image url not found")
  | some img_url =>
    let err_msg_https := "Image not available, " ++ img_url
    let err_msg_img_data := "Image not available"
    let err := if pyStartsWith img_url ("https") then err_msg_https else err_msg_img_data
    if pyStartsWith img_url ("https") then
      if network_ok && decode_ok then .image else .errText err
    else if pyStartsWith img_url ("data") then
      if decode_ok then .image else .errText err
    else .errText err

/-! ### Tree paths and the anchor-id pre-pass (`check_anchor_id_length`)

BeautifulSoup mutates tag objects in place; the pre-pass first collects the
matching `<a>` tags and then rewrites attributes through those references.
Functionally we identify a tag by its path (list of child indices from the
root) and rewrite by path; attribute writes never change the tree shape, so
paths collected up front stay valid. -/

/-- Node at a path. -/
def getNode : HtmlNode → List Nat → Option HtmlNode
  | n, [] => some n
  | .text _, _ :: _ => none
  | .elem _ _ cs, i :: p =>
    match cs[i]? with
    | some c => getNode c p
    | none => none

mutual
/-- Rewrite one attribute of the node at a path (no-op on a bad path). -/
def setAttrAt : HtmlNode → List Nat → String → String → HtmlNode
  | .text s, _, _, _ => .text s
  | .elem t a cs, [], k, v => .elem t (setA a k v) cs
  | .elem t a cs, i :: p, k, v => .elem t a (setAttrAtL cs i p k v)
def setAttrAtL : List HtmlNode → Nat → List Nat → String → String → List HtmlNode
  | [], _, _, _, _ => []
  | c :: cs, 0, p, k, v => setAttrAt c p k v :: cs
  | c :: cs, i + 1, p, k, v => c :: setAttrAtL cs i p k v
end

mutual
/-- Path (relative to the given node) of the first node in document order
satisfying the predicate, the node itself included — the search order of
BeautifulSoup's `find`. -/
def findPath (pred : HtmlNode → Bool) (n : HtmlNode) : Option (List Nat) :=
  if pred n then some []
  else
    match n with
    | .text _ => none
    | .elem _ _ cs => findPathL pred cs 0
def findPathL (pred : HtmlNode → Bool) : List HtmlNode → Nat → Option (List Nat)
  | [], _ => none
  | c :: cs, i =>
    match findPath pred c with
    | some q => some (i :: q)
    | none => findPathL pred cs (i + 1)
end

/-- Character class `[a-zA-Z0-9-]` of the anchor-id pattern. -/
def anchorIdChar (c : Char) : Bool := c.isAlpha || c.isDigit || c == '-'

/-- Python `re.search(r"#[a-zA-Z0-9-]{41,}", s)` as a Boolean: somewhere in
the string a `#` is followed by at least 41 class characters. -/
def hasHashRun41 : List Char → Bool
  | [] => false
  | '#' :: rest =>
    if (rest.take 41).length = 41 && (rest.take 41).all anchorIdChar then true
    else hasHashRun41 rest
  | _ :: rest => hasHashRun41 rest

/-- Does the anchor's `href` match the pre-pass pattern?  `find_all("a",
href=re.compile(...))` keeps tags that have an `href` on which the pattern
`search`es successfully. -/
def anchorMatches (n : HtmlNode) : Bool :=
  match getAttr n ("href") with
  | some h => hasHashRun41 h.data
  | none => false

mutual
/-- Paths (relative to the given node, which itself is excluded, as with
`find_all`) of all matching `<a>` descendants, in document order. -/
def anchorPathsNode : HtmlNode → List (List Nat)
  | .text _ => []
  | .elem _ _ cs => anchorPathsL cs 0
def anchorPathsL : List HtmlNode → Nat → List (List Nat)
  | [], _ => []
  | c :: cs, i =>
    (if isNamed ("a") c && anchorMatches c then [[i]] else []) ++
      (anchorPathsNode c).map (fun q => i :: q) ++ anchorPathsL cs (i + 1)
end

/-- Element with the given id: `soup_html.find(id=href_val)`, searching the
whole document. -/
def hasId (v : String) (n : HtmlNode) : Bool := getAttr n ("id") == some v

/-- Body of the pre-pass loop for a single collected anchor.  The regex
guarantees the href contains a `#`, and the collected paths point at `<a>`
tags with an `href`, so the `t`-returning fallbacks are unreachable. -/
def anchorStep (t : HtmlNode) (p : List Nat) : HtmlNode :=
  match getNode t p with
  | none => t
  | some a =>
    match getAttr a ("href") with
    | none => t
    | some href =>
      match splitChar '#' href.data with
      | _ :: frag :: _ =>
        let href_val : String := .mk frag
        match findPath (hasId href_val) t with
        | none => t
        | some q =>
          let t1 := setAttrAt t q ("id") (.mk (frag.take 40))
          setAttrAt t1 p ("href") (.mk ('#' :: frag.take 40))
      | _ => t

/-- Source `check_anchor_id_length` (its `article_id` parameter is unused).
Anchors are collected under `soup_html.body`; the id lookup searches the
whole document.  A document without a `body` would make Python fail on
`None.find_all` — lxml always supplies one, and we return the tree
unchanged in that unreachable case. -/
def check_anchor_id_length (t : HtmlNode) : HtmlNode :=
  match findPath (isNamed ("body")) t with
  | none => t
  | some bp =>
    match getNode t bp with
    | none => t
    | some body =>
      ((anchorPathsNode body).map (fun sp => bp ++ sp)).foldl anchorStep t

/-! ### The output trace

python-docx objects are mutated in place; the model records every mutation
as an event.  Paragraphs get numeric ids (a counter threaded through the
recursion); a run event names the paragraph it was added to, the ancestor
tag chain of the text node it came from, and the `styles` dict as it stood
at emission, so properties of emitted runs can be stated directly. -/

/-- Shape of an emitted docx table: `add_table(rows=len(rows), cols=columns)`
plus which cells the cell loop visited (`cellsPerRow`); the remaining cells
keep the empty default paragraph `add_table` gave them. -/
structure GridShape where
  ncols : Nat
  cellsPerRow : List Nat
deriving DecidableEq, Repr

/-- Emission events. -/
inductive Ev where
  | par (pid : Nat) (style : Option String) (indentLevel : Nat)
  | alignPar (pid : Nat) (v : String)
  | numCont (pid : Nat) (prev : Option Nat)
  | textRun (pid : Nat) (ancestors : List String) (st : StyleDict) (r : RunE)
  | brk (pid : Nat)
  | bookmark (pid : Nat) (name : String) (text : String) (bid : String)
  | extLink (pid : Nat) (text : String) (url : String)
  | intLink (pid : Nat) (text : String) (anchor : String)
  | tbl (g : GridShape)
deriving DecidableEq, Repr

/-- Source `create_bookmark_run`: a run with the given text wrapped in
`bookmarkStart`/`bookmarkEnd` markers sharing one id. -/
def create_bookmark_run (pid : Nat) (bookmark_name text id : String) : Ev :=
  .bookmark pid bookmark_name text id

/-- Source `align_para`: set the docx alignment for `text-align`
center/right/justify; left and unrecognized values change nothing. -/
def align_para (style_dict : List (String × String)) (pid : Nat) : List Ev :=
  match lookupA style_dict ("text-align") with
  | none => []
  | some value =>
    if value = "center" then [.alignPar pid ("center")]
    else if value = "right" then [.alignPar pid ("right")]
    else if value = "justify" then [.alignPar pid ("justify")]
    else []

/-- Bookmark-run events for an optional `id` attribute: the
`if "id" in tag.attrs: create_bookmark_run(paragraph, tag["id"], "", tag["id"])`
pattern shared by several handlers. -/
def bmEvs (pid : Nat) (o : Option String) : List Ev :=
  match o with
  | some idv => [create_bookmark_run pid idv ("") idv]
  | none => []

mutual
/-- BeautifulSoup `tag.text`: concatenated text of all descendants. -/
def textOf : HtmlNode → String
  | .text s => s
  | .elem _ _ cs => textOfL cs
def textOfL : List HtmlNode → String
  | [] => ""
  | c :: cs => textOf c ++ textOfL cs
end

/-- Whitespace word-split used for the multi-valued `class` attribute
(BeautifulSoup presents `tag["class"]` as a token list). -/
def wordsWsAux (cur : List Char) : List Char → List (List Char)
  | [] => if cur.isEmpty then [] else [cur.reverse]
  | c :: rest =>
    if pyWs c then
      if cur.isEmpty then wordsWsAux [] rest else cur.reverse :: wordsWsAux [] rest
    else wordsWsAux (c :: cur) rest

/-- Class token list of a `class` attribute value. -/
def classTokens (v : String) : List String := (wordsWsAux [] v.data).map (fun l => .mk l)

mutual
/-- Descendant elements (document order, the node itself excluded, matching
`find_all`) whose tag is in `names`, each paired with its ancestor-name
chain, nearest ancestor first.  `chain` is the chain above the given node. -/
def findAllChain (names : List String) (chain : List String) : HtmlNode → List (List String × HtmlNode)
  | .text _ => []
  | .elem t _ cs => findAllChainL names (t :: chain) cs
def findAllChainL (names : List String) (chain : List String) : List HtmlNode → List (List String × HtmlNode)
  | [] => []
  | c :: cs =>
    (match nodeName c with
     | some t => if t ∈ names then [(chain, c)] else []
     | none => []) ++ findAllChain names chain c ++ findAllChainL names chain cs
end

/-- Python `max()` over a list; `none` models the `ValueError` raised on an
empty sequence. -/
def listMax : List Nat → Option Nat
  | [] => none
  | x :: rest =>
    match listMax rest with
    | none => some x
    | some m => some (max x m)

/-- Heading tag names. -/
def headingNames : List String := [("h1"), ("h2"), ("h3"), ("h4"), ("h5"), ("h6")]

/-- The `tag_names` mapping `check_style_parent` receives at text emission
(dict literal order preserved). -/
def styleTagNames : List (TagKey × String) :=
  [(.one ("span"), ("span")), (.two ("b") ("strong"), ("bold")),
   (.two ("i") ("em"), ("italic")), (.one ("u"), ("underline"))]

/-- One entry of the `soup.body.descendants` dispatcher loop: the node, its
element siblings context and its ancestor-name chain (parent first). -/
structure DescItem where
  before : List HtmlNode
  after : List HtmlNode
  chain : List String
  node : HtmlNode

/-!  The walker family.  Conventions for every function below:

* the first argument is fuel; fuel 0 is `.error ()` and all recursive calls
  decrement it, so any sufficiently large fuel computes the Python result;
* `root` is the module-global `soup` used by the anchor-link lookup;
* `anc`/`chain` is `[tag.name] + [t.name for t in tag.parents]` — exactly
  the `ancestors` value the source computes on each loop iteration;
* `cell : Bool` stands for the `cell`/`docx_cell` argument (`false` =
  `None`); the only operations on it are the `is not None` test and
  `add_paragraph`, which emits a `par` event;
* `styles : Option StyleDict` — `none` is Python `None` (method calls on it
  raise, modelled as `.error ()`); the returned dict models the in-place
  mutation of the one shared dict object, which the caller and the
  remaining siblings observe;
* the unused `parent_tag` parameter of `process_p_child_tags` (passed along
  but never read) is omitted. -/

set_option maxHeartbeats 1600000 in
mutual

/-- Source `process_p_child_tags`: iterate over the children of `tag`. -/
def process_p_child_tags : Nat → HtmlNode → Nat → HtmlNode → List String → Bool →
    Option StyleDict → Nat → Except Unit (List Ev × Nat × Option StyleDict)
  | 0, _, _, _, _, _, _, _ => .error ()
  | fuel + 1, root, pid, tag, anc, cell, styles, ctr =>
    processPChildren fuel root pid anc cell styles ctr (childrenOf tag)
termination_by structural fuel => fuel

/-- The `for child in tag.children` loop. -/
def processPChildren : Nat → HtmlNode → Nat → List String → Bool → Option StyleDict →
    Nat → List HtmlNode → Except Unit (List Ev × Nat × Option StyleDict)
  | 0, _, _, _, _, _, _, _ => .error ()
  | _ + 1, _, _, _, _, styles, ctr, [] => .ok ([], ctr, styles)
  | fuel + 1, root, pid, anc, cell, styles, ctr, c :: cs =>
    match processPChild fuel root pid anc cell styles ctr c with
    | .error e => .error e
    | .ok (evs1, ctr1, st1) =>
      match processPChildren fuel root pid anc cell st1 ctr1 cs with
      | .error e => .error e
      | .ok (evs2, ctr2, st2) => .ok (evs1 ++ evs2, ctr2, st2)
termination_by structural fuel => fuel

/-- One iteration of the `process_p_child_tags` loop body. -/
def processPChild : Nat → HtmlNode → Nat → List String → Bool → Option StyleDict →
    Nat → HtmlNode → Except Unit (List Ev × Nat × Option StyleDict)
  | 0, _, _, _, _, _, _, _ => .error ()
  | fuel + 1, root, pid, anc, cell, styles, ctr, child =>
    match child with
    | .text s =>
      -- `isinstance(child, str)`; `child.parent.name == tag.name` always
      -- holds for a direct child of `tag`
      if skip_crlf (.text s) then .ok ([], ctr, styles)
      else
        match styles with
        | none => .ok ([.textRun pid anc [] (plainRun s)], ctr, none)
        | some d =>
          if d.isEmpty then .ok ([.textRun pid anc [] (plainRun s)], ctr, some d)
          else
            let d1 := check_style_parent anc d styleTagNames
            .ok ([.textRun pid anc d1 (add_text_color d1 s)], ctr, some d1)
    | .elem name cattrs _ =>
      if name = "br" then .ok ([.brk pid], ctr, styles)
      else if name = "p" then
        let bm : List Ev := bmEvs pid (lookupA cattrs ("id"))
        if cell then
          match process_p_child_tags fuel root ctr child (name :: anc) cell styles (ctr + 1) with
          | .error e => .error e
          | .ok (evs, ctr', st') => .ok (bm ++ [Ev.par ctr none 0] ++ evs, ctr', st')
        else
          match process_p_child_tags fuel root pid child (name :: anc) cell styles ctr with
          | .error e => .error e
          | .ok (evs, ctr', st') => .ok (bm ++ evs, ctr', st')
      else if name ∈ headingNames then
        -- `heading = cell.add_paragraph(...)`: raises AttributeError when
        -- cell is None; the recursion omits `styles`, i.e. passes None
        if cell then
          match process_p_child_tags fuel root ctr child (name :: anc) cell none (ctr + 1) with
          | .error e => .error e
          | .ok (evs, ctr', _) =>
            .ok ([Ev.par ctr (some ("Heading " ++ name.drop 1)) 0] ++ evs, ctr', styles)
        else .error ()
      else if name = "span" then
        match parse_styles (some ((getAttr child ("style")).getD (""))) with
        | .error e => .error e
        | .ok span_styles =>
          match styles with
          | none => .error ()  -- styles.update on None raises AttributeError
          | some d =>
            let d1 := setA d ("span") (.d span_styles)
            let cls := classTokens ((getAttr child ("class")).getD (""))
            if hasAttr child ("class") ∧ "bookmark" ∈ cls then
              match getAttr child ("name"), getAttr child ("id") with
              | some nm, some idv =>
                .ok ([create_bookmark_run pid nm (textOf child) idv], ctr, some d1)
              | _, _ => .error ()  -- child["name"] / child["id"] raise KeyError
            else if hasAttr child ("class") ∧ "anchor" ∈ cls then
              match getAttr child ("id") with
              | some idv => .ok ([create_bookmark_run pid idv ("") idv], ctr, some d1)
              | none => .error ()
            else process_p_child_tags fuel root pid child (name :: anc) cell (some d1) ctr
      else if name = "strong" ∨ name = "b" then
        match styles with
        | none => .error ()
        | some d =>
          let d1 := setA d ("bold") (.b true)
          let d2 := check_style_parent anc d1 [(.one ("span"), ("span"))]
          process_p_child_tags fuel root pid child (name :: anc) cell (some d2) ctr
      else if name = "em" ∨ name = "i" then
        match styles with
        | none => .error ()
        | some d =>
          let d1 := setA d ("italic") (.b true)
          let d2 := check_style_parent anc d1
            [(.one ("span"), ("span")), (.two ("b") ("strong"), ("bold"))]
          process_p_child_tags fuel root pid child (name :: anc) cell (some d2) ctr
      else if name = "u" then
        match styles with
        | none => .error ()
        | some d =>
          let d1 := setA d ("underline") (.b true)
          let d2 := check_style_parent anc d1
            [(.one ("span"), ("span")), (.two ("b") ("strong"), ("bold")),
             (.two ("i") ("em"), ("italic"))]
          process_p_child_tags fuel root pid child (name :: anc) cell (some d2) ctr
      else if name = "mark" then
        process_p_child_tags fuel root pid child (name :: anc) cell styles ctr
      else if name = "a" then
        let cls := classTokens ((getAttr child ("class")).getD (""))
        if hasAttr child ("class") ∧ "anchor-link" ∈ cls then
          match cls with
          | [] => .error ()  -- unreachable: membership above needs a token
          | a_id :: _ =>
            match findPath (hasId a_id) root with
            | some q =>
              match getNode root q with
              | some bookmark_span =>
                let bk_name :=
                  match getAttr bookmark_span ("name") with
                  | some nm => nm
                  | none => (getAttr bookmark_span ("id")).getD a_id
                .ok ([.intLink pid (textOf child) bk_name], ctr, styles)
              | none => .ok ([], ctr, styles)  -- unreachable: path from the search
            | none => .ok ([], ctr, styles)
        else
          .ok ([.extLink pid (textOf child) ((getAttr child ("href")).getD (""))], ctr, styles)
      else if name = "ul" ∨ name = "ol" then
        -- `child.parent.name == "td"`: the parent is the current tag
        match process_list fuel root (if anc.headD ("") = "td" then cell else false)
            child anc none 1 ctr with
        | .error e => .error e
        | .ok (evs, ctr', _) => .ok (evs, ctr', styles)
      else if name = "table" then
        match add_docx_tables fuel root child anc ctr with
        | .error e => .error e
        | .ok (evs, ctr') => .ok (evs, ctr', styles)
      else if name = "blockquote" ∧ (anc.headD ("") = "td" ∨ anc.headD ("") = "th") then
        match process_blockquote_paragraphs fuel root child (name :: anc) cell ctr with
        | .error e => .error e
        | .ok (evs, ctr') => .ok (evs, ctr', styles)
      else .ok ([], ctr, styles)  -- unhandled tags (img handling is commented out)
termination_by structural fuel => fuel

/-- Source `process_list`: iterate over the direct `<li>` children. -/
def process_list : Nat → HtmlNode → Bool → HtmlNode → List String → Option Nat →
    Nat → Nat → Except Unit (List Ev × Nat × Option Nat)
  | 0, _, _, _, _, _, _, _ => .error ()
  | fuel + 1, root, docx_cell, list_tag, chain, parentPar, level, ctr =>
    let listName := (nodeName list_tag).getD ("")
    processLis fuel root docx_cell listName (listName :: chain) level parentPar ctr
      (directLis list_tag)
termination_by structural fuel => fuel

/-- The `for li in list_tag.find_all("li", recursive=False)` loop. -/
def processLis : Nat → HtmlNode → Bool → String → List String → Nat → Option Nat →
    Nat → List HtmlNode → Except Unit (List Ev × Nat × Option Nat)
  | 0, _, _, _, _, _, _, _, _ => .error ()
  | _ + 1, _, _, _, _, _, parentPar, ctr, [] => .ok ([], ctr, parentPar)
  | fuel + 1, root, docx_cell, listName, chainAtList, level, parentPar, ctr, li :: rest =>
    match processLiChildren fuel root docx_cell listName chainAtList level parentPar ctr
        (childrenOf li) with
    | .error e => .error e
    | .ok (evs1, ctr1, pp1) =>
      match processLis fuel root docx_cell listName chainAtList level pp1 ctr1 rest with
      | .error e => .error e
      | .ok (evs2, ctr2, pp2) => .ok (evs1 ++ evs2, ctr2, pp2)
termination_by structural fuel => fuel

/-- The `for child in li.children` loop. -/
def processLiChildren : Nat → HtmlNode → Bool → String → List String → Nat → Option Nat →
    Nat → List HtmlNode → Except Unit (List Ev × Nat × Option Nat)
  | 0, _, _, _, _, _, _, _, _ => .error ()
  | _ + 1, _, _, _, _, _, parentPar, ctr, [] => .ok ([], ctr, parentPar)
  | fuel + 1, root, docx_cell, listName, chainAtList, level, parentPar, ctr, c :: cs =>
    match processLiChild fuel root docx_cell listName chainAtList level parentPar ctr c with
    | .error e => .error e
    | .ok (evs1, ctr1, pp1) =>
      match processLiChildren fuel root docx_cell listName chainAtList level pp1 ctr1 cs with
      | .error e => .error e
      | .ok (evs2, ctr2, pp2) => .ok (evs1 ++ evs2, ctr2, pp2)
termination_by structural fuel => fuel

/-- One iteration of the `process_list` inner loop body.  A child that is
neither `ol` nor `ul` nor a bare CR/LF opens a fresh list paragraph (style
`List Number`/`List Bullet`, indented 0.25 inch per level); the branch chain
then decides what lands in it. -/
def processLiChild : Nat → HtmlNode → Bool → String → List String → Nat → Option Nat →
    Nat → HtmlNode → Except Unit (List Ev × Nat × Option Nat)
  | 0, _, _, _, _, _, _, _, _ => .error ()
  | fuel + 1, root, docx_cell, listName, chainAtList, level, parentPar, ctr, child =>
    let style := if listName = "ol" then "List Number" else "List Bullet"
    match child with
    | .text s =>
      if skip_crlf (.text s) then .ok ([], ctr, parentPar)
      else
        -- the paragraph is created, but no branch of the loop body emits a
        -- bare string child: its text is dropped and the paragraph is empty
        .ok ([Ev.par ctr (some style) level], ctr + 1, parentPar)
    | .elem name cattrs _ =>
      if name = "a" then
        .ok ([Ev.par ctr (some style) level,
              .extLink ctr (textOf child) ((getAttr child ("href")).getD (""))],
          ctr + 1, parentPar)
      else if name = "p" ∨ name = "blockquote" then
        let pid := ctr
        let contEvs : List Ev := if style = "List Number" then [.numCont pid parentPar] else []
        match parse_styles (lookupA cattrs ("style")) with
        | .error e => .error e
        | .ok style_dict =>
          let alignEvs := align_para style_dict pid
          let bm : List Ev := bmEvs pid (lookupA cattrs ("id"))
          match process_p_child_tags fuel root pid child (name :: "li" :: chainAtList)
              docx_cell (some (toStyleDict style_dict)) (ctr + 1) with
          | .error e => .error e
          | .ok (evs, ctr', _) =>
            .ok ([Ev.par pid (some style) level] ++ contEvs ++ alignEvs ++ bm ++ evs,
              ctr', some pid)
      else if name = "ol" ∨ name = "ul" then
        match process_list fuel root docx_cell child ("li" :: chainAtList) none (level + 1) ctr with
        | .error e => .error e
        | .ok (evs, ctr', _) => .ok (evs, ctr', parentPar)
      else if name = "table" then
        -- `child.parent.name == "li"` always holds for a direct child; the
        -- table is spliced right after the open paragraph (`p.addnext`)
        match add_docx_tables fuel root child ("li" :: chainAtList) (ctr + 1) with
        | .error e => .error e
        | .ok (evs, ctr') => .ok ([Ev.par ctr (some style) level] ++ evs, ctr', parentPar)
      else
        -- any other element opens the list paragraph and is then ignored
        .ok ([Ev.par ctr (some style) level], ctr + 1, parentPar)
termination_by structural fuel => fuel

/-- Source `process_blockquote_paragraphs`: each child becomes its own
paragraph — strings as a plain run, elements recursively with an empty
styles dict and no cell. -/
def process_blockquote_paragraphs : Nat → HtmlNode → HtmlNode → List String → Bool →
    Nat → Except Unit (List Ev × Nat)
  | 0, _, _, _, _, _ => .error ()
  | fuel + 1, root, tag, chainAtBq, cell, ctr =>
    processBqChildren fuel root chainAtBq cell ctr (childrenOf tag)
termination_by structural fuel => fuel

/-- The `for p_tags in tag.children` loop of `process_blockquote_paragraphs`. -/
def processBqChildren : Nat → HtmlNode → List String → Bool → Nat → List HtmlNode →
    Except Unit (List Ev × Nat)
  | 0, _, _, _, _, _ => .error ()
  | _ + 1, _, _, _, ctr, [] => .ok ([], ctr)
  | fuel + 1, root, chainAtBq, cell, ctr, c :: cs =>
    match processBqChild fuel root chainAtBq cell ctr c with
    | .error e => .error e
    | .ok (evs1, ctr1) =>
      match processBqChildren fuel root chainAtBq cell ctr1 cs with
      | .error e => .error e
      | .ok (evs2, ctr2) => .ok (evs1 ++ evs2, ctr2)
termination_by structural fuel => fuel

/-- One child of a blockquote. -/
def processBqChild : Nat → HtmlNode → List String → Bool → Nat → HtmlNode →
    Except Unit (List Ev × Nat)
  | 0, _, _, _, _, _ => .error ()
  | fuel + 1, root, chainAtBq, _cell, ctr, p_tags =>
    match p_tags with
    | .text s =>
      if skip_crlf (.text s) then .ok ([], ctr)
      else .ok ([Ev.par ctr none 0, .textRun ctr chainAtBq [] (plainRun s)], ctr + 1)
    | .elem name _ _ =>
      match process_p_child_tags fuel root ctr p_tags (name :: chainAtBq) false (some [])
          (ctr + 1) with
      | .error e => .error e
      | .ok (evs, ctr', _) => .ok ([Ev.par ctr none 0] ++ evs, ctr')
termination_by structural fuel => fuel

/-- Source `add_docx_tables`.  `rows = table_html.find_all("tr")` and the
per-row `row.find_all(["td", "th"])` search all descendants; `columns` is
`max()` over the per-row cell counts, which raises `ValueError` when there
is no row.  (`if not table_html` is falsy for a tag without children.) -/
def add_docx_tables : Nat → HtmlNode → HtmlNode → List String → Nat →
    Except Unit (List Ev × Nat)
  | 0, _, _, _, _ => .error ()
  | fuel + 1, root, table_html, chain, ctr =>
    if (childrenOf table_html).isEmpty then .ok ([], ctr)
    else
      let rows := findAllChain [("tr")] chain table_html
      let cellsOfRows := rows.map (fun rc => findAllChain [("td"), ("th")] rc.1 rc.2)
      match listMax (cellsOfRows.map List.length) with
      | none => .error ()
      | some columns =>
        let g : GridShape := { ncols := columns, cellsPerRow := cellsOfRows.map List.length }
        match processTableRows fuel root ctr cellsOfRows with
        | .error e => .error e
        | .ok (evs, ctr') => .ok ([Ev.tbl g] ++ evs, ctr')
termination_by structural fuel => fuel

/-- The `for i, row in enumerate(rows)` loop. -/
def processTableRows : Nat → HtmlNode → Nat → List (List (List String × HtmlNode)) →
    Except Unit (List Ev × Nat)
  | 0, _, _, _ => .error ()
  | _ + 1, _, ctr, [] => .ok ([], ctr)
  | fuel + 1, root, ctr, row :: rest =>
    match processTableCells fuel root ctr row with
    | .error e => .error e
    | .ok (evs1, ctr1) =>
      match processTableRows fuel root ctr1 rest with
      | .error e => .error e
      | .ok (evs2, ctr2) => .ok (evs1 ++ evs2, ctr2)
termination_by structural fuel => fuel

/-- The `for j, cell in enumerate(cells)` loop. -/
def processTableCells : Nat → HtmlNode → Nat → List (List String × HtmlNode) →
    Except Unit (List Ev × Nat)
  | 0, _, _, _ => .error ()
  | _ + 1, _, ctr, [] => .ok ([], ctr)
  | fuel + 1, root, ctr, c :: cs =>
    match processTableCell fuel root ctr c with
    | .error e => .error e
    | .ok (evs1, ctr1) =>
      match processTableCells fuel root ctr1 cs with
      | .error e => .error e
      | .ok (evs2, ctr2) => .ok (evs1 ++ evs2, ctr2)
termination_by structural fuel => fuel

/-- Inner `process_table_cell`: parse the cell's own inline style, add a
paragraph to the docx cell and recurse into the cell's children with that
style as root styles. -/
def processTableCell : Nat → HtmlNode → Nat → List String × HtmlNode →
    Except Unit (List Ev × Nat)
  | 0, _, _, _ => .error ()
  | fuel + 1, root, ctr, cc =>
    match parse_styles (getAttr cc.2 ("style")) with
    | .error e => .error e
    | .ok style_data =>
      match process_p_child_tags fuel root ctr cc.2 (((nodeName cc.2).getD ("")) :: cc.1)
          true (some (toStyleDict style_data)) (ctr + 1) with
      | .error e => .error e
      | .ok (evs, ctr', _) => .ok ([Ev.par ctr none 0] ++ evs, ctr')
termination_by structural fuel => fuel

/-- Body of the `for tag in soup.body.descendants` dispatcher loop of
`html_to_docx`, for one visited node.  Returns the emitted events, the
paragraph counter and the updated `list_prev_p`. -/
def dispatchStep : Nat → HtmlNode → Nat → Option Nat → DescItem →
    Except Unit (List Ev × Nat × Option Nat)
  | 0, _, _, _, _ => .error ()
  | fuel + 1, root, ctr, listPrev, it =>
    let parentName := it.chain.headD ("")
    match it.node with
    | .text s =>
      -- a bare string has `name == None`, so the heading test fails; the
      -- `skip_crlf` branch (lines 645-647) then `continue`s, and every
      -- later branch tests `tag.name`, never true for a string
      if skip_crlf (.text s) then .ok ([], ctr, listPrev) else .ok ([], ctr, listPrev)
    | .elem name nattrs _ =>
      if name ∈ headingNames ∧ ¬ (parentName = "td" ∨ parentName = "th") then
        match process_p_child_tags fuel root ctr it.node (name :: it.chain) false (some [])
            (ctr + 1) with
        | .error e => .error e
        | .ok (evs, ctr', _) =>
          let bm : List Ev := bmEvs ctr (lookupA nattrs ("id"))
          .ok ([Ev.par ctr (some ("Heading " ++ name.drop 1)) 0] ++ evs ++ bm, ctr', listPrev)
      else if name = "p" ∧ ¬ (parentName ∈ [("li"), ("td"), ("th"), ("blockquote")]) then
        match parse_styles (lookupA nattrs ("style")) with
        | .error e => .error e
        | .ok style_dict =>
          let alignEvs := align_para style_dict ctr
          let bm : List Ev := bmEvs ctr (lookupA nattrs ("id"))
          match process_p_child_tags fuel root ctr it.node (name :: it.chain) false
              (some (toStyleDict style_dict)) (ctr + 1) with
          | .error e => .error e
          | .ok (evs, ctr', _) =>
            .ok ([Ev.par ctr none 0] ++ alignEvs ++ bm ++ evs, ctr', listPrev)
      else if name = "blockquote" ∧ (parentName = "div" ∨ parentName = "body") then
        match process_blockquote_paragraphs fuel root it.node (name :: it.chain) false ctr with
        | .error e => .error e
        | .ok (evs, ctr') => .ok (evs, ctr', listPrev)
      else if name = "div" then
        if hasAttr it.node ("class") ∧
            "note" ∈ classTokens ((getAttr it.node ("class")).getD ("")) then
          match process_p_child_tags fuel root ctr it.node (name :: it.chain) false (some [])
              (ctr + 1) with
          | .error e => .error e
          | .ok (evs, ctr', _) => .ok ([Ev.par ctr none 0] ++ evs, ctr', listPrev)
        else .ok ([], ctr, listPrev)
      else if (name = "ul" ∨ name = "ol") ∧ ¬ (parentName ∈ [("td"), ("th"), ("li")]) then
        match is_list_continued it.before it.after it.node with
        | .error e => .error e
        | .ok dec =>
          if dec = some true then
            process_list fuel root false it.node it.chain listPrev 1 ctr
          else
            process_list fuel root false it.node it.chain none 1 ctr
      else if name = "table" ∧ ¬ (parentName ∈ [("li"), ("p")]) then
        match add_docx_tables fuel root it.node it.chain ctr with
        | .error e => .error e
        | .ok (evs, ctr') => .ok (evs, ctr', listPrev)
      else if name = "a" ∧ ¬ (parentName ∈ [("p"), ("li"), ("td"), ("th"), ("h1"), ("h2"),
          ("h3"), ("h4"), ("h5"), ("h6")]) then
        match getAttr it.node ("href") with
        | none => .error ()  -- tag["href"] raises KeyError
        | some url => .ok ([Ev.par ctr none 0, .extLink ctr (textOf it.node) url], ctr + 1, listPrev)
      else .ok ([], ctr, listPrev)
end

/-! ### Concrete fixtures used by the claim theorems -/

/-- Document root used where a global `soup` is needed. -/
def fixRoot : HtmlNode := .elem ("html") [] [.elem ("body") [] []]

/-- A list item with no attributes. -/
def fixLi : HtmlNode := .elem ("li") [] [.text ("x")]

/-- First of two adjacent plain ordered lists. -/
def fixOl1 : HtmlNode := .elem ("ol") [] [fixLi]

/-- Second of two adjacent plain ordered lists. -/
def fixOl2 : HtmlNode := .elem ("ol") [] [fixLi]

/-- List item declaring an explicit `value`. -/
def fixLiV (v : String) : HtmlNode := .elem ("li") [(("value"), v)] [.text ("x")]

/-- Ordered list whose first item declares an explicit `value`. -/
def fixOlV (v : String) : HtmlNode := .elem ("ol") [] [fixLiV v]

/-- Image element with a remote https source. -/
def fixImgHttps : HtmlNode := .elem ("img") [(("src"), ("https://x"))] []

/-- Single-item ordered list whose item holds a bare text node. -/
def fixOlText : HtmlNode := .elem ("ol") [] [.elem ("li") [] [.text ("hello")]]

/-- Paragraph whose inline style declares `font-family: bold`. -/
def fixPFF : HtmlNode := .elem ("p") [(("style"), ("font-family: bold"))] [.text ("x")]

/-- Paragraph with a bold child followed by an italic sibling:
`<p><b>a</b><i>t</i></p>`. -/
def fixPBI : HtmlNode :=
  .elem ("p") [] [.elem ("b") [] [.text ("a")], .elem ("i") [] [.text ("t")]]

/-- Paragraph with nested bold and italic: `<p><b><i>t</i></b></p>`. -/
def fixPBII : HtmlNode := .elem ("p") [] [.elem ("b") [] [.elem ("i") [] [.text ("t")]]]

/-- Table cell holding one text node. -/
def fixTd (s : String) : HtmlNode := .elem ("td") [] [.text s]

/-- Table row. -/
def fixTr (cs : List HtmlNode) : HtmlNode := .elem ("tr") [] cs

/-- Ragged two-row table: rows `[[a, b, c], [d, e]]`. -/
def fixTblRagged : HtmlNode := .elem ("table") []
  [fixTr [fixTd ("a"), fixTd ("b"), fixTd ("c")], fixTr [fixTd ("d"), fixTd ("e")]]

/-- Table whose only child is not a row. -/
def fixTblBad : HtmlNode := .elem ("table") [] [.elem ("p") [] [.text ("x")]]

/-- The text runs of a trace, each with the ancestor chain recorded at
emission time. -/
def textRunsOf (evs : List Ev) : List (List String × RunE) :=
  evs.filterMap (fun e =>
    match e with
    | .textRun _ ancestors _ r => some (ancestors, r)
    | _ => none)

/-- Text runs of a walker result (none on failure). -/
def runsOfResult {γ : Type} (r : Except Unit (List Ev × γ)) : List (List String × RunE) :=
  match r with
  | .error _ => []
  | .ok (evs, _) => textRunsOf evs

/-- The grid shape of the leading table event of a result, if any. -/
def firstGrid (r : Except Unit (List Ev × Nat)) : Option GridShape :=
  match r with
  | .ok (Ev.tbl g :: _, _) => some g
  | _ => none

/-- Is the node an element (as opposed to a bare string)? -/
def isElem : HtmlNode → Bool
  | .elem _ _ _ => true
  | .text _ => false

/-- Attribute of the node at a path. -/
def getAttrAt (t : HtmlNode) (p : List Nat) (k : String) : Option String :=
  (getNode t p).bind (fun n => getAttr n k)

/-- The hash fragment of the `href` at a path: the piece between the first
and second `#`, exactly what `anchorStep` extracts. -/
def hrefFrag (t : HtmlNode) (p : List Nat) : Option (List Char) :=
  match getAttrAt t p ("href") with
  | some h => (splitChar '#' h.data)[1]?
  | none => none

/-- Anchor-id string of 45 `a`s: matched by the pre-pass pattern. -/
def fixLongId : String := .mk (List.replicate 45 'a')

/-- Anchor-id string of 46 characters containing an underscore: longer than
40 but never matched by `#[a-zA-Z0-9-]{41,}`. -/
def fixMidId : String := .mk (List.replicate 20 'a' ++ '_' :: List.replicate 25 'b')

/-- Document with one hash anchor and its target, parameterized by the id. -/
def fixAnchorDoc (idv : String) : HtmlNode :=
  .elem ("html") [] [.elem ("body") [] [
    .elem ("a") [(("href"), ("#" ++ idv))] [.text ("go")],
    .elem ("p") [(("id"), idv)] [.text ("target")]]]

/-- Gating property of an emitted event: on a text run, a boolean
formatting flag is `some true` only when a qualifying tag occurs in the
run's recorded ancestor chain — except that bold may also come from a
`font-family` declaration containing `"bold"` in the styles snapshot.  All
other events satisfy it trivially. -/
def GoodEv : Ev → Prop
  | .textRun _ ancestors st r =>
      (r.bold = some true → "b" ∈ ancestors ∨ "strong" ∈ ancestors ∨ ffBold st = true) ∧
      (r.italic = some true → "i" ∈ ancestors ∨ "em" ∈ ancestors) ∧
      (r.underline = some true → "u" ∈ ancestors)
  | _ => True

/-- All events of a successful result are gated (`GoodEv`); failure
carries none. -/
def GoodExc {γ : Type} (r : Except Unit (List Ev × γ)) : Prop :=
  ∀ x, r = .ok x → ∀ e ∈ x.1, GoodEv e

/-! ### Dictionary lemmas and the style-gating property -/

theorem lookupA_setA_self {α : Type} (d : List (String × α)) (k : String) (v : α) :
    lookupA (setA d k v) k = some v := by
  induction d with
  | nil => simp [setA, lookupA]
  | cons h t ih =>
    obtain ⟨k', v'⟩ := h
    by_cases hk : k' = k <;> simp [setA, hk, lookupA, ih]

theorem lookupA_setA_ne {α : Type} (d : List (String × α)) (k k' : String) (v : α)
    (h : k ≠ k') : lookupA (setA d k v) k' = lookupA d k' := by
  induction d with
  | nil => simp [setA, lookupA, h]
  | cons hd t ih =>
    obtain ⟨k0, v0⟩ := hd
    by_cases hk : k0 = k
    · subst hk; simp [setA, lookupA, h]
    · simp [setA, hk, lookupA, ih]

theorem setA_ne_nil {α : Type} (d : List (String × α)) (k : String) (v : α) :
    setA d k v ≠ [] := by
  cases d with
  | nil => simp [setA]
  | cons hd t =>
    obtain ⟨k0, v0⟩ := hd
    by_cases hk : k0 = k <;> simp [setA, hk]

theorem tuple_check_lookup (t1 t2 style : String) (anc : List String) (d : StyleDict) :
    lookupA (tuple_check t1 t2 style anc d) style =
      some (.b (decide (t1 ∈ anc ∨ t2 ∈ anc))) := by
  unfold tuple_check
  split_ifs with h
  · rw [lookupA_setA_self]
    simp [h.1, h.2]
  · rw [lookupA_setA_self]
    rw [Classical.not_and_iff_or_not_not] at h
    simp only [not_not] at h
    rcases h with h | h <;> simp [h]

theorem tuple_check_lookup_ne (t1 t2 style k : String) (anc : List String) (d : StyleDict)
    (h : style ≠ k) : lookupA (tuple_check t1 t2 style anc d) k = lookupA d k := by
  unfold tuple_check
  split_ifs <;> rw [lookupA_setA_ne _ _ _ _ h]

/-- Unfolding of `check_style_parent` at the full text-emission mapping. -/
theorem csp_unfold (anc : List String) (d : StyleDict) :
    check_style_parent anc d styleTagNames =
      (if "u" ∉ anc then
        setA (tuple_check ("i") ("em") ("italic") anc
              (tuple_check ("b") ("strong") ("bold") anc
                (if "span" ∉ anc then setA d ("span") (.d []) else d)))
          ("underline") (.b false)
       else
        tuple_check ("i") ("em") ("italic") anc
          (tuple_check ("b") ("strong") ("bold") anc
            (if "span" ∉ anc then setA d ("span") (.d []) else d))) := rfl

theorem csp_bold (anc : List String) (d : StyleDict) :
    lookupA (check_style_parent anc d styleTagNames) ("bold") =
      some (.b (decide ("b" ∈ anc ∨ "strong" ∈ anc))) := by
  rw [csp_unfold]
  generalize (if "span" ∉ anc then setA d ("span") (StyleVal.d []) else d) = d0
  split_ifs with hu
  · rw [tuple_check_lookup_ne _ _ ("italic") ("bold") _ _ (by decide), tuple_check_lookup]
  · rw [lookupA_setA_ne _ ("underline") ("bold") _ (by decide),
      tuple_check_lookup_ne _ _ ("italic") ("bold") _ _ (by decide), tuple_check_lookup]

theorem csp_italic (anc : List String) (d : StyleDict) :
    lookupA (check_style_parent anc d styleTagNames) ("italic") =
      some (.b (decide ("i" ∈ anc ∨ "em" ∈ anc))) := by
  rw [csp_unfold]
  generalize (if "span" ∉ anc then setA d ("span") (StyleVal.d []) else d) = d0
  split_ifs with hu
  · rw [tuple_check_lookup]
  · rw [lookupA_setA_ne _ ("underline") ("italic") _ (by decide), tuple_check_lookup]

theorem csp_underline_notin (anc : List String) (d : StyleDict) (hu : "u" ∉ anc) :
    lookupA (check_style_parent anc d styleTagNames) ("underline") = some (.b false) := by
  rw [csp_unfold, if_pos hu, lookupA_setA_self]

theorem csp_ff (anc : List String) (d : StyleDict) :
    lookupA (check_style_parent anc d styleTagNames) ("font-family") =
      lookupA d ("font-family") := by
  rw [csp_unfold]
  split_ifs with hu hs hs
  · rw [tuple_check_lookup_ne _ _ ("italic") ("font-family") _ _ (by decide),
      tuple_check_lookup_ne _ _ ("bold") ("font-family") _ _ (by decide)]
  · rw [tuple_check_lookup_ne _ _ ("italic") ("font-family") _ _ (by decide),
      tuple_check_lookup_ne _ _ ("bold") ("font-family") _ _ (by decide),
      lookupA_setA_ne _ ("span") ("font-family") _ (by decide)]
  · rw [lookupA_setA_ne _ ("underline") ("font-family") _ (by decide),
      tuple_check_lookup_ne _ _ ("italic") ("font-family") _ _ (by decide),
      tuple_check_lookup_ne _ _ ("bold") ("font-family") _ _ (by decide)]
  · rw [lookupA_setA_ne _ ("underline") ("font-family") _ (by decide),
      tuple_check_lookup_ne _ _ ("italic") ("font-family") _ _ (by decide),
      tuple_check_lookup_ne _ _ ("bold") ("font-family") _ _ (by decide),
      lookupA_setA_ne _ ("span") ("font-family") _ (by decide)]

theorem csp_ffBold (anc : List String) (d : StyleDict) :
    ffBold (check_style_parent anc d styleTagNames) = ffBold d := by
  unfold ffBold
  rw [csp_ff]

theorem tuple_check_ne_nil (t1 t2 style : String) (anc : List String) (d : StyleDict) :
    tuple_check t1 t2 style anc d ≠ [] := by
  unfold tuple_check
  split_ifs <;> exact setA_ne_nil _ _ _

theorem csp_ne_nil (anc : List String) (d : StyleDict) :
    check_style_parent anc d styleTagNames ≠ [] := by
  rw [csp_unfold]
  generalize (if "span" ∉ anc then setA d ("span") (StyleVal.d []) else d) = d0
  split_ifs with hu
  · exact tuple_check_ne_nil _ _ _ _ _
  · exact setA_ne_nil _ _ _

theorem goodEv_par {pid : Nat} {st : Option String} {l : Nat} : GoodEv (.par pid st l) := trivial

theorem goodEv_plain {pid : Nat} {anc : List String} {st : StyleDict} {s : String} :
    GoodEv (.textRun pid anc st (plainRun s)) := by
  simp [GoodEv, plainRun]

/-- Flags of an `add_text_color` run in terms of the dict it was given. -/
theorem add_text_color_flags (d : StyleDict) (s : String) :
    ((add_text_color d s).bold = some true →
        ffBold d = true ∨ lookupB d ("bold") = some true) ∧
    ((add_text_color d s).italic = some true → lookupB d ("italic") = some true) ∧
    ((add_text_color d s).underline = some true → lookupB d ("underline") = some true) := by
  have hflag : ∀ col : Option (Nat × Nat × Nat),
      (({ text := s,
          bold := if ffBold d then some true else lookupB d ("bold"),
          italic := lookupB d ("italic"), underline := lookupB d ("underline"),
          color := col } : RunE).bold = some true →
            ffBold d = true ∨ lookupB d ("bold") = some true) ∧
      (({ text := s,
          bold := if ffBold d then some true else lookupB d ("bold"),
          italic := lookupB d ("italic"), underline := lookupB d ("underline"),
          color := col } : RunE).italic = some true → lookupB d ("italic") = some true) ∧
      (({ text := s,
          bold := if ffBold d then some true else lookupB d ("bold"),
          italic := lookupB d ("italic"), underline := lookupB d ("underline"),
          color := col } : RunE).underline = some true →
            lookupB d ("underline") = some true) := by
    intro col
    refine ⟨?_, fun h => h, fun h => h⟩
    intro hb
    change (if ffBold d then some true else lookupB d ("bold")) = some true at hb
    by_cases hff : ffBold d
    · exact Or.inl hff
    · rw [if_neg hff] at hb
      exact Or.inr hb
  unfold add_text_color
  by_cases he : d.isEmpty
  · rw [if_pos he]
    simp [plainRun]
  · rw [if_neg he]
    cases hsc : spanColorVal d with
    | none => exact hflag none
    | some tc =>
      cases hpc : parseRunColor tc with
      | none =>
        simp only [hpc]
        simp [plainRun]
      | some rgbv =>
        simp only [hpc]
        exact hflag (some rgbv)

/-- The central local fact: a run emitted through
`check_style_parent`-then-`add_text_color` is gated by the ancestor chain. -/
theorem goodEv_styled (pid : Nat) (anc : List String) (d : StyleDict) (s : String) :
    GoodEv (.textRun pid anc (check_style_parent anc d styleTagNames)
      (add_text_color (check_style_parent anc d styleTagNames) s)) := by
  obtain ⟨hb, hi, hu⟩ := add_text_color_flags (check_style_parent anc d styleTagNames) s
  refine ⟨?_, ?_, ?_⟩
  · intro h
    rcases hb h with hff | hlk
    · exact Or.inr (Or.inr hff)
    · unfold lookupB at hlk
      rw [csp_bold] at hlk
      simp only [] at hlk
      rcases of_decide_eq_true (Option.some.inj hlk) with h1 | h1
      · exact Or.inl h1
      · exact Or.inr (Or.inl h1)
  · intro h
    have hlk := hi h
    unfold lookupB at hlk
    rw [csp_italic] at hlk
    simp only [] at hlk
    exact of_decide_eq_true (Option.some.inj hlk)
  · intro h
    by_cases hmem : "u" ∈ anc
    · exact hmem
    · exfalso
      have hlk := hu h
      unfold lookupB at hlk
      rw [csp_underline_notin anc d hmem] at hlk
      simp only [] at hlk
      exact Bool.noConfusion (Option.some.inj hlk)

theorem goodExc_error {γ : Type} (err : Unit) : GoodExc (γ := γ) (.error err) := by
  intro x hx
  exact Except.noConfusion hx

theorem goodExc_ok {γ : Type} {p : List Ev × γ} (h : ∀ e ∈ p.1, GoodEv e) :
    GoodExc (.ok p) := by
  intro x hx e he
  cases hx
  exact h e he

theorem goodEv_mem_bmEvs {pid : Nat} {o : Option String} (e : Ev) (he : e ∈ bmEvs pid o) :
    GoodEv e := by
  cases o with
  | none => simp [bmEvs] at he
  | some idv =>
    simp [bmEvs, create_bookmark_run] at he
    subst he
    trivial

theorem goodEv_mem_align {d : List (String × String)} {pid : Nat} (e : Ev)
    (he : e ∈ align_para d pid) : GoodEv e := by
  unfold align_para at he
  split at he
  · simp at he
  · split_ifs at he <;> simp at he <;> subst he <;> trivial

theorem goodExc_ok_nil {γ : Type} {g : γ} : GoodExc (.ok (([] : List Ev), g)) :=
  goodExc_ok (by simp)

theorem goodExc_ok_single {γ : Type} {g : γ} {e0 : Ev} (h : GoodEv e0) :
    GoodExc (.ok ([e0], g)) := by
  refine goodExc_ok ?_
  intro e he
  simp at he
  subst he
  exact h

set_option maxHeartbeats 4000000 in
/-- Every event emitted by any walker function is gated (`GoodEv`): the
only text runs carrying a flag come from the text-emission step, which
re-validates every flag against the ancestor chain via
`check_style_parent`, or from `add_text_color`'s `font-family` override. -/
theorem goodAll : ∀ fuel : Nat,
    (∀ root pid tag anc cell styles ctr,
      GoodExc (process_p_child_tags fuel root pid tag anc cell styles ctr)) ∧
    (∀ root pid anc cell styles ctr cs,
      GoodExc (processPChildren fuel root pid anc cell styles ctr cs)) ∧
    (∀ root pid anc cell styles ctr c,
      GoodExc (processPChild fuel root pid anc cell styles ctr c)) ∧
    (∀ root dc lt chain pp lvl ctr,
      GoodExc (process_list fuel root dc lt chain pp lvl ctr)) ∧
    (∀ root dc ln ch lvl pp ctr lis,
      GoodExc (processLis fuel root dc ln ch lvl pp ctr lis)) ∧
    (∀ root dc ln ch lvl pp ctr cs,
      GoodExc (processLiChildren fuel root dc ln ch lvl pp ctr cs)) ∧
    (∀ root dc ln ch lvl pp ctr c,
      GoodExc (processLiChild fuel root dc ln ch lvl pp ctr c)) ∧
    (∀ root tag ch cell ctr,
      GoodExc (process_blockquote_paragraphs fuel root tag ch cell ctr)) ∧
    (∀ root ch cell ctr cs, GoodExc (processBqChildren fuel root ch cell ctr cs)) ∧
    (∀ root ch cell ctr c, GoodExc (processBqChild fuel root ch cell ctr c)) ∧
    (∀ root t ch ctr, GoodExc (add_docx_tables fuel root t ch ctr)) ∧
    (∀ root ctr rows, GoodExc (processTableRows fuel root ctr rows)) ∧
    (∀ root ctr cs, GoodExc (processTableCells fuel root ctr cs)) ∧
    (∀ root ctr cc, GoodExc (processTableCell fuel root ctr cc)) ∧
    (∀ root ctr lp it, GoodExc (dispatchStep fuel root ctr lp it)) := by
  intro fuel
  induction fuel with
  | zero =>
    refine ⟨?_, ?_, ?_, ?_, ?_, ?_, ?_, ?_, ?_, ?_, ?_, ?_, ?_, ?_, ?_⟩ <;>
      (intros
       simp only [process_p_child_tags, processPChildren, processPChild, process_list,
         processLis, processLiChildren, processLiChild, process_blockquote_paragraphs,
         processBqChildren, processBqChild, add_docx_tables, processTableRows,
         processTableCells, processTableCell, dispatchStep]
       exact goodExc_error ())
  | succ f ih =>
    obtain ⟨ihP, ihCs, ihC, ihL, ihLis, ihLiCs, ihLiC, ihBq, ihBqCs, ihBqC,
      ihT, ihTR, ihTCs, ihTC, ihD⟩ := ih
    refine ⟨?_, ?_, ?_, ?_, ?_, ?_, ?_, ?_, ?_, ?_, ?_, ?_, ?_, ?_, ?_⟩
    -- process_p_child_tags
    · intro root pid tag anc cell styles ctr
      simp only [process_p_child_tags]
      exact ihCs _ _ _ _ _ _ _
    -- processPChildren
    · intro root pid anc cell styles ctr cs
      cases cs with
      | nil =>
        simp only [processPChildren]
        exact goodExc_ok_nil
      | cons c cs' =>
        simp only [processPChildren]
        split
        · exact goodExc_error _
        · rename_i y heq1
          split
          · exact goodExc_error _
          · rename_i z heq2
            refine goodExc_ok ?_
            intro e he
            rcases List.mem_append.1 he with h | h
            · exact ihC _ _ _ _ _ _ _ _ heq1 e h
            · exact ihCs _ _ _ _ _ _ _ _ heq2 e h
    -- processPChild
    · intro root pid anc cell styles ctr c
      cases c with
      | text s =>
        simp only [processPChild]
        split
        · exact goodExc_ok_nil
        · split
          · exact goodExc_ok_single goodEv_plain
          · split
            · exact goodExc_ok_single goodEv_plain
            · exact goodExc_ok_single (goodEv_styled _ _ _ _)
      | elem name cattrs ccs =>
        cases styles with
        | none =>
          rw [processPChild.eq_4]
          by_cases h1 : name = "br"
          · rw [if_pos h1]
            exact goodExc_ok_single trivial
          · rw [if_neg h1]
            by_cases h2 : name = "p"
            · rw [if_pos h2]
              split
              · split
                · exact goodExc_error _
                · rename_i y heq
                  refine goodExc_ok ?_
                  intro e he
                  rcases List.mem_append.1 he with he2 | h
                  · rcases List.mem_append.1 he2 with h | h
                    · exact goodEv_mem_bmEvs e h
                    · simp at h
                      subst h
                      trivial
                  · exact ihP _ _ _ _ _ _ _ _ heq e h
              · split
                · exact goodExc_error _
                · rename_i y heq
                  refine goodExc_ok ?_
                  intro e he
                  rcases List.mem_append.1 he with h | h
                  · exact goodEv_mem_bmEvs e h
                  · exact ihP _ _ _ _ _ _ _ _ heq e h
            · rw [if_neg h2]
              by_cases h3 : name ∈ headingNames
              · rw [if_pos h3]
                split
                · split
                  · exact goodExc_error _
                  · rename_i y heq
                    refine goodExc_ok ?_
                    intro e he
                    rcases List.mem_append.1 he with h | h
                    · simp at h
                      subst h
                      trivial
                    · exact ihP _ _ _ _ _ _ _ _ heq e h
                · exact goodExc_error _
              · rw [if_neg h3]
                by_cases h4 : name = "span"
                · rw [if_pos h4]
                  split <;> exact goodExc_error _
                · rw [if_neg h4]
                  by_cases h5 : name = "strong" ∨ name = "b"
                  · rw [if_pos h5]
                    exact goodExc_error _
                  · rw [if_neg h5]
                    by_cases h6 : name = "em" ∨ name = "i"
                    · rw [if_pos h6]
                      exact goodExc_error _
                    · rw [if_neg h6]
                      by_cases h7 : name = "u"
                      · rw [if_pos h7]
                        exact goodExc_error _
                      · rw [if_neg h7]
                        by_cases h8 : name = "mark"
                        · rw [if_pos h8]
                          exact ihP _ _ _ _ _ _ _
                        · rw [if_neg h8]
                          by_cases h9 : name = "a"
                          · rw [if_pos h9]
                            simp only []
                            split
                            · split
                              · exact goodExc_error _
                              · split
                                · split
                                  · exact goodExc_ok_single trivial
                                  · exact goodExc_ok_nil
                                · exact goodExc_ok_nil
                            · exact goodExc_ok_single trivial
                          · rw [if_neg h9]
                            by_cases h10 : name = "ul" ∨ name = "ol"
                            · rw [if_pos h10]
                              split
                              · exact goodExc_error _
                              · rename_i y heq
                                refine goodExc_ok ?_
                                intro e he
                                exact ihL _ _ _ _ _ _ _ _ heq e he
                            · rw [if_neg h10]
                              by_cases h11 : name = "table"
                              · rw [if_pos h11]
                                split
                                · exact goodExc_error _
                                · rename_i y heq
                                  refine goodExc_ok ?_
                                  intro e he
                                  exact ihT _ _ _ _ _ heq e he
                              · rw [if_neg h11]
                                by_cases h12 : name = "blockquote" ∧
                                    (anc.headD ("") = "td" ∨ anc.headD ("") = "th")
                                · rw [if_pos h12]
                                  split
                                  · exact goodExc_error _
                                  · rename_i y heq
                                    refine goodExc_ok ?_
                                    intro e he
                                    exact ihBq _ _ _ _ _ _ heq e he
                                · rw [if_neg h12]
                                  exact goodExc_ok_nil
        | some d =>
          rw [processPChild.eq_5]
          by_cases h1 : name = "br"
          · rw [if_pos h1]
            exact goodExc_ok_single trivial
          · rw [if_neg h1]
            by_cases h2 : name = "p"
            · rw [if_pos h2]
              split
              · split
                · exact goodExc_error _
                · rename_i y heq
                  refine goodExc_ok ?_
                  intro e he
                  rcases List.mem_append.1 he with he2 | h
                  · rcases List.mem_append.1 he2 with h | h
                    · exact goodEv_mem_bmEvs e h
                    · simp at h
                      subst h
                      trivial
                  · exact ihP _ _ _ _ _ _ _ _ heq e h
              · split
                · exact goodExc_error _
                · rename_i y heq
                  refine goodExc_ok ?_
                  intro e he
                  rcases List.mem_append.1 he with h | h
                  · exact goodEv_mem_bmEvs e h
                  · exact ihP _ _ _ _ _ _ _ _ heq e h
            · rw [if_neg h2]
              by_cases h3 : name ∈ headingNames
              · rw [if_pos h3]
                split
                · split
                  · exact goodExc_error _
                  · rename_i y heq
                    refine goodExc_ok ?_
                    intro e he
                    rcases List.mem_append.1 he with h | h
                    · simp at h
                      subst h
                      trivial
                    · exact ihP _ _ _ _ _ _ _ _ heq e h
                · exact goodExc_error _
              · rw [if_neg h3]
                by_cases h4 : name = "span"
                · rw [if_pos h4]
                  split
                  · exact goodExc_error _
                  · simp only []
                    split
                    · split <;>
                        first
                          | exact goodExc_error _
                          | exact goodExc_ok_single trivial
                    · split
                      · split <;>
                          first
                            | exact goodExc_error _
                            | exact goodExc_ok_single trivial
                      · exact ihP _ _ _ _ _ _ _
                · rw [if_neg h4]
                  by_cases h5 : name = "strong" ∨ name = "b"
                  · rw [if_pos h5]
                    exact ihP _ _ _ _ _ _ _
                  · rw [if_neg h5]
                    by_cases h6 : name = "em" ∨ name = "i"
                    · rw [if_pos h6]
                      exact ihP _ _ _ _ _ _ _
                    · rw [if_neg h6]
                      by_cases h7 : name = "u"
                      · rw [if_pos h7]
                        exact ihP _ _ _ _ _ _ _
                      · rw [if_neg h7]
                        by_cases h8 : name = "mark"
                        · rw [if_pos h8]
                          exact ihP _ _ _ _ _ _ _
                        · rw [if_neg h8]
                          by_cases h9 : name = "a"
                          · rw [if_pos h9]
                            simp only []
                            split
                            · split
                              · exact goodExc_error _
                              · split
                                · split
                                  · exact goodExc_ok_single trivial
                                  · exact goodExc_ok_nil
                                · exact goodExc_ok_nil
                            · exact goodExc_ok_single trivial
                          · rw [if_neg h9]
                            by_cases h10 : name = "ul" ∨ name = "ol"
                            · rw [if_pos h10]
                              split
                              · exact goodExc_error _
                              · rename_i y heq
                                refine goodExc_ok ?_
                                intro e he
                                exact ihL _ _ _ _ _ _ _ _ heq e he
                            · rw [if_neg h10]
                              by_cases h11 : name = "table"
                              · rw [if_pos h11]
                                split
                                · exact goodExc_error _
                                · rename_i y heq
                                  refine goodExc_ok ?_
                                  intro e he
                                  exact ihT _ _ _ _ _ heq e he
                              · rw [if_neg h11]
                                by_cases h12 : name = "blockquote" ∧
                                    (anc.headD ("") = "td" ∨ anc.headD ("") = "th")
                                · rw [if_pos h12]
                                  split
                                  · exact goodExc_error _
                                  · rename_i y heq
                                    refine goodExc_ok ?_
                                    intro e he
                                    exact ihBq _ _ _ _ _ _ heq e he
                                · rw [if_neg h12]
                                  exact goodExc_ok_nil
    -- process_list
    · intro root dc lt chain pp lvl ctr
      simp only [process_list]
      exact ihLis _ _ _ _ _ _ _ _
    -- processLis
    · intro root dc ln ch lvl pp ctr lis
      cases lis with
      | nil =>
        simp only [processLis]
        exact goodExc_ok_nil
      | cons li rest =>
        simp only [processLis]
        split
        · exact goodExc_error _
        · rename_i y heq1
          split
          · exact goodExc_error _
          · rename_i z heq2
            refine goodExc_ok ?_
            intro e he
            rcases List.mem_append.1 he with h | h
            · exact ihLiCs _ _ _ _ _ _ _ _ _ heq1 e h
            · exact ihLis _ _ _ _ _ _ _ _ _ heq2 e h
    -- processLiChildren
    · intro root dc ln ch lvl pp ctr cs
      cases cs with
      | nil =>
        simp only [processLiChildren]
        exact goodExc_ok_nil
      | cons c cs' =>
        simp only [processLiChildren]
        split
        · exact goodExc_error _
        · rename_i y heq1
          split
          · exact goodExc_error _
          · rename_i z heq2
            refine goodExc_ok ?_
            intro e he
            rcases List.mem_append.1 he with h | h
            · exact ihLiC _ _ _ _ _ _ _ _ _ heq1 e h
            · exact ihLiCs _ _ _ _ _ _ _ _ _ heq2 e h
    -- processLiChild
    · intro root dc ln ch lvl pp ctr c
      cases c with
      | text s =>
        simp only [processLiChild]
        split
        · exact goodExc_ok_nil
        · exact goodExc_ok_single trivial
      | elem name cattrs ccs =>
        simp only [processLiChild]
        split
        -- a
        · refine goodExc_ok ?_
          intro e he
          simp at he
          rcases he with rfl | rfl <;> trivial
        · split
          -- p / blockquote
          · split
            · exact goodExc_error _
            · split
              · exact goodExc_error _
              · rename_i y heq
                refine goodExc_ok ?_
                intro e he
                rcases List.mem_append.1 he with he4 | h
                · rcases List.mem_append.1 he4 with he3 | h
                  · rcases List.mem_append.1 he3 with he2 | h
                    · rcases List.mem_append.1 he2 with h | h
                      · simp at h
                        subst h
                        trivial
                      · split at h
                        · simp at h
                          subst h
                          trivial
                        · simp at h
                    · exact goodEv_mem_align e h
                  · exact goodEv_mem_bmEvs e h
                · exact ihP _ _ _ _ _ _ _ _ heq e h
          · split
            -- nested list
            · split
              · exact goodExc_error _
              · rename_i y heq
                refine goodExc_ok ?_
                intro e he
                exact ihL _ _ _ _ _ _ _ _ heq e he
            · split
              -- table in li
              · split
                · exact goodExc_error _
                · rename_i y heq
                  refine goodExc_ok ?_
                  intro e he
                  rcases List.mem_append.1 he with h | h
                  · simp at h; subst h; trivial
                  · exact ihT _ _ _ _ _ heq e h
              · exact goodExc_ok_single trivial
    -- process_blockquote_paragraphs
    · intro root tag ch cell ctr
      simp only [process_blockquote_paragraphs]
      exact ihBqCs _ _ _ _ _
    -- processBqChildren
    · intro root ch cell ctr cs
      cases cs with
      | nil =>
        simp only [processBqChildren]
        exact goodExc_ok_nil
      | cons c cs' =>
        simp only [processBqChildren]
        split
        · exact goodExc_error _
        · rename_i y heq1
          split
          · exact goodExc_error _
          · rename_i z heq2
            refine goodExc_ok ?_
            intro e he
            rcases List.mem_append.1 he with h | h
            · exact ihBqC _ _ _ _ _ _ heq1 e h
            · exact ihBqCs _ _ _ _ _ _ heq2 e h
    -- processBqChild
    · intro root ch cell ctr c
      cases c with
      | text s =>
        simp only [processBqChild]
        split
        · exact goodExc_ok_nil
        · refine goodExc_ok ?_
          intro e he
          simp at he
          rcases he with rfl | rfl
          · trivial
          · exact goodEv_plain
      | elem name cattrs ccs =>
        simp only [processBqChild]
        split
        · exact goodExc_error _
        · rename_i y heq
          refine goodExc_ok ?_
          intro e he
          rcases List.mem_append.1 he with h | h
          · simp at h; subst h; trivial
          · exact ihP _ _ _ _ _ _ _ _ heq e h
    -- add_docx_tables
    · intro root t ch ctr
      simp only [add_docx_tables]
      split
      · exact goodExc_ok_nil
      · split
        · exact goodExc_error _
        · split
          · exact goodExc_error _
          · rename_i y heq
            refine goodExc_ok ?_
            intro e he
            rcases List.mem_append.1 he with h | h
            · simp at h; subst h; trivial
            · exact ihTR _ _ _ _ heq e h
    -- processTableRows
    · intro root ctr rows
      cases rows with
      | nil =>
        simp only [processTableRows]
        exact goodExc_ok_nil
      | cons r rest =>
        simp only [processTableRows]
        split
        · exact goodExc_error _
        · rename_i y heq1
          split
          · exact goodExc_error _
          · rename_i z heq2
            refine goodExc_ok ?_
            intro e he
            rcases List.mem_append.1 he with h | h
            · exact ihTCs _ _ _ _ heq1 e h
            · exact ihTR _ _ _ _ heq2 e h
    -- processTableCells
    · intro root ctr cs
      cases cs with
      | nil =>
        simp only [processTableCells]
        exact goodExc_ok_nil
      | cons c cs' =>
        simp only [processTableCells]
        split
        · exact goodExc_error _
        · rename_i y heq1
          split
          · exact goodExc_error _
          · rename_i z heq2
            refine goodExc_ok ?_
            intro e he
            rcases List.mem_append.1 he with h | h
            · exact ihTC _ _ _ _ heq1 e h
            · exact ihTCs _ _ _ _ heq2 e h
    -- processTableCell
    · intro root ctr cc
      simp only [processTableCell]
      split
      · exact goodExc_error _
      · split
        · exact goodExc_error _
        · rename_i y heq
          refine goodExc_ok ?_
          intro e he
          rcases List.mem_append.1 he with h | h
          · simp at h; subst h; trivial
          · exact ihP _ _ _ _ _ _ _ _ heq e h
    -- dispatchStep
    · intro root ctr lp it
      match hn : it.node with
      | .text s =>
        simp only [dispatchStep, hn]
        split <;> exact goodExc_ok_nil
      | .elem name nattrs ncs =>
        simp only [dispatchStep, hn]
        split
        -- heading
        · split
          · exact goodExc_error _
          · rename_i y heq
            refine goodExc_ok ?_
            intro e he
            rcases List.mem_append.1 he with he2 | h
            · rcases List.mem_append.1 he2 with h | h
              · simp at h
                subst h
                trivial
              · exact ihP _ _ _ _ _ _ _ _ heq e h
            · exact goodEv_mem_bmEvs e h
        · split
          -- p
          · split
            · exact goodExc_error _
            · split
              · exact goodExc_error _
              · rename_i y heq
                refine goodExc_ok ?_
                intro e he
                rcases List.mem_append.1 he with he3 | h
                · rcases List.mem_append.1 he3 with he2 | h
                  · rcases List.mem_append.1 he2 with h | h
                    · simp at h
                      subst h
                      trivial
                    · exact goodEv_mem_align e h
                  · exact goodEv_mem_bmEvs e h
                · exact ihP _ _ _ _ _ _ _ _ heq e h
          · split
            -- blockquote
            · split
              · exact goodExc_error _
              · rename_i y heq
                refine goodExc_ok ?_
                intro e he
                exact ihBq _ _ _ _ _ _ heq e he
            · split
              -- div
              · split
                · split
                  · exact goodExc_error _
                  · rename_i y heq
                    refine goodExc_ok ?_
                    intro e he
                    rcases List.mem_append.1 he with h | h
                    · simp at h; subst h; trivial
                    · exact ihP _ _ _ _ _ _ _ _ heq e h
                · exact goodExc_ok_nil
              · split
                -- lists
                · split
                  · exact goodExc_error _
                  · split
                    · exact ihL _ _ _ _ _ _ _
                    · exact ihL _ _ _ _ _ _ _
                · split
                  -- table
                  · split
                    · exact goodExc_error _
                    · rename_i y heq
                      refine goodExc_ok ?_
                      intro e he
                      exact ihT _ _ _ _ _ heq e he
                  · split
                    -- a
                    · split
                      · exact goodExc_error _
                      · refine goodExc_ok ?_
                        intro e he
                        simp at he
                        rcases he with rfl | rfl <;> trivial
                    · exact goodExc_ok_nil

/-! ### C3 — adjacent plain ordered lists -/

/-- Claim C3, counterexample.  For two adjacent top-level `<ol>` lists with
no `start` and no item `value` attributes, the claim says the decision for
the second list is false (numbering restarts); the code takes the
previous-sibling-and-no-following-sibling branch and returns `True`, so the
second list continues the first. -/
theorem c3_counterexample :
    is_list_continued [fixOl1] [] fixOl2 = .ok (some true) ∧
    ¬ is_list_continued [fixOl1] [] fixOl2 = .ok (some false) := by
  constructor
  · rfl
  · intro h
    rw [show is_list_continued [fixOl1] [] fixOl2 = .ok (some true) from rfl] at h
    simp at h

/-- Claim C3, amended.  Whenever an ordered list has at least one previous
`ol` sibling and no following `ol` sibling — in particular the second of
two adjacent plain ordered lists — the continuation decision is true: its
numbering continues the earlier list rather than restarting. -/
theorem c3_second_list_continues (before after : List HtmlNode) (cur : HtmlNode)
    (hprev : before.filter (isNamed ("ol")) ≠ [])
    (hnext : after.filter (isNamed ("ol")) = []) :
    is_list_continued before after cur = .ok (some true) := by
  have hlen : 0 < (List.filter (isNamed ("ol")) before.reverse).length := by
    obtain ⟨x, hmem⟩ := List.exists_mem_of_ne_nil _ hprev
    obtain ⟨hx, hpx⟩ := List.mem_filter.1 hmem
    exact List.length_pos.2
      (List.ne_nil_of_mem (List.mem_filter.2 ⟨List.mem_reverse.2 hx, hpx⟩))
  simp only [is_list_continued, hnext]
  rw [if_neg (by intro h; omega), if_pos ⟨hlen, rfl⟩]

/-- Witness for C3's amended theorem at the two-list fixture. -/
theorem c3_second_list_continues_witness :
    is_list_continued [fixOl1] [] fixOl2 = .ok (some true) :=
  c3_second_list_continues [fixOl1] [] fixOl2
    (by
      rw [show List.filter (isNamed ("ol")) [fixOl1] = [fixOl1] from rfl]
      exact List.cons_ne_nil _ _)
    rfl

/-! ### C4 — item-level value comparison -/

/-- Claim C4.  When the value-comparison step is reached (a following `ol`
sibling exists and neither list declares `start`): if both first items
declare integer values the decision is exactly `next − current == 1`; if
either first item lacks a value the decision is not-continued; values 3/4
give true and 3/5 give false. -/
theorem c4_value_comparison :
    (∀ (before after : List HtmlNode) (cur nxt : HtmlNode) (nrest restL restS : List HtmlNode)
        (li0 sib0 : HtmlNode) (cv sv : String) (a b : Int),
      after.filter (isNamed ("ol")) = nxt :: nrest →
      hasAttr cur ("start") = false → hasAttr nxt ("start") = false →
      directLis cur = li0 :: restL → getAttr li0 ("value") = some cv →
      directLis nxt = sib0 :: restS → getAttr sib0 ("value") = some sv →
      pyInt sv = some a → pyInt cv = some b →
      is_list_continued before after cur = .ok (some (decide (a - b = 1)))) ∧
    (∀ (before after : List HtmlNode) (cur nxt : HtmlNode) (nrest restL : List HtmlNode)
        (li0 : HtmlNode),
      after.filter (isNamed ("ol")) = nxt :: nrest →
      hasAttr cur ("start") = false → hasAttr nxt ("start") = false →
      directLis cur = li0 :: restL → getAttr li0 ("value") = none →
      is_list_continued before after cur = .ok (some false)) ∧
    (∀ (before after : List HtmlNode) (cur nxt : HtmlNode) (nrest restL restS : List HtmlNode)
        (li0 sib0 : HtmlNode) (cv : String),
      after.filter (isNamed ("ol")) = nxt :: nrest →
      hasAttr cur ("start") = false → hasAttr nxt ("start") = false →
      directLis cur = li0 :: restL → getAttr li0 ("value") = some cv →
      directLis nxt = sib0 :: restS → getAttr sib0 ("value") = none →
      is_list_continued before after cur = .ok (some false)) ∧
    is_list_continued [] [fixOlV ("4")] (fixOlV ("3")) = .ok (some true) ∧
    is_list_continued [] [fixOlV ("5")] (fixOlV ("3")) = .ok (some false) := by
  refine ⟨?_, ?_, ?_, rfl, rfl⟩
  · intro before after cur nxt nrest restL restS li0 sib0 cv sv a b
    intro hafter hs1 hs2 hcur hv hsib hw ha hb
    unfold is_list_continued
    rw [hafter]
    rw [if_neg (by simp), if_neg (by simp)]
    simp only []
    rw [if_neg (by simp [hs2]), if_neg (by simp [hs2]), if_neg (by simp [hs1])]
    rw [hcur]
    simp only [liValueLoop, hv, hsib, hw, ha, hb]
  · intro before after cur nxt nrest restL li0
    intro hafter hs1 hs2 hcur hv
    unfold is_list_continued
    rw [hafter]
    rw [if_neg (by simp), if_neg (by simp)]
    simp only []
    rw [if_neg (by simp [hs2]), if_neg (by simp [hs2]), if_neg (by simp [hs1])]
    rw [hcur]
    simp only [liValueLoop, hv]
  · intro before after cur nxt nrest restL restS li0 sib0 cv
    intro hafter hs1 hs2 hcur hv hsib hw
    unfold is_list_continued
    rw [hafter]
    rw [if_neg (by simp), if_neg (by simp)]
    simp only []
    rw [if_neg (by simp [hs2]), if_neg (by simp [hs2]), if_neg (by simp [hs1])]
    rw [hcur]
    simp only [liValueLoop, hv, hsib, hw]

/-- Witness for C4 at values 3 and 4. -/
theorem c4_value_comparison_witness :
    is_list_continued [] [fixOlV ("4")] (fixOlV ("3")) = .ok (some (decide ((4 : Int) - 3 = 1))) :=
  c4_value_comparison.1 [] [fixOlV ("4")] (fixOlV ("3")) (fixOlV ("4")) [] [] []
    (fixLiV ("3")) (fixLiV ("4")) ("3") ("4") 4 3 rfl rfl rfl rfl rfl rfl rfl rfl rfl

/-! ### C6 — bare CR/LF text nodes are skipped everywhere -/

/-- Claim C6.  A text node that is exactly `"\n"` or `"\r"` is recognized by
`skip_crlf`, and every walker loop — the paragraph-child loop, the
list-item-child loop, the blockquote loop and the top-level dispatcher —
leaves the output and all counters unchanged on such a node: no run and no
paragraph is emitted for it. -/
theorem c6_crlf_skipped :
    (skip_crlf (.text ("\n")) = true ∧ skip_crlf (.text ("\r")) = true) ∧
    (∀ (f : Nat) (root : HtmlNode) (pid : Nat) (anc : List String) (cell : Bool)
        (styles : Option StyleDict) (ctr : Nat) (s : String), skip_crlf (.text s) = true →
      processPChild (f + 1) root pid anc cell styles ctr (.text s) = .ok ([], ctr, styles)) ∧
    (∀ (f : Nat) (root : HtmlNode) (dc : Bool) (ln : String) (ch : List String)
        (lvl : Nat) (pp : Option Nat) (ctr : Nat) (s : String), skip_crlf (.text s) = true →
      processLiChild (f + 1) root dc ln ch lvl pp ctr (.text s) = .ok ([], ctr, pp)) ∧
    (∀ (f : Nat) (root : HtmlNode) (ch : List String) (cell : Bool) (ctr : Nat) (s : String),
      skip_crlf (.text s) = true →
      processBqChild (f + 1) root ch cell ctr (.text s) = .ok ([], ctr)) ∧
    (∀ (f : Nat) (root : HtmlNode) (ctr : Nat) (lp : Option Nat)
        (before after : List HtmlNode) (chain : List String) (s : String),
      skip_crlf (.text s) = true →
      dispatchStep (f + 1) root ctr lp
        { before := before, after := after, chain := chain, node := .text s } =
          .ok ([], ctr, lp)) := by
  refine ⟨⟨rfl, rfl⟩, ?_, ?_, ?_, ?_⟩
  · intro f root pid anc cell styles ctr s h
    cases styles with
    | none =>
      rw [processPChild.eq_2, if_pos h]
    | some d =>
      rw [processPChild.eq_3, if_pos h]
  · intro f root dc ln ch lvl pp ctr s h
    simp only [processLiChild]
    rw [if_pos h]
  · intro f root ch cell ctr s h
    simp only [processBqChild]
    rw [if_pos h]
  · intro f root ctr lp before after chain s h
    simp only [dispatchStep]
    rw [if_pos h]

/-- Witness for C6 at a bare newline inside a list item. -/
theorem c6_crlf_skipped_witness :
    processLiChild 1 fixRoot false ("ol") [("ol")] 1 none 0 (.text ("\n")) = .ok ([], 0, none) :=
  c6_crlf_skipped.2.2.1 0 fixRoot false ("ol") [("ol")] 1 none 0 ("\n") rfl

/-! ### C9 — image failure messages -/

/-- Claim C9, counterexample.  For an https image, a network failure and a
decode failure produce the identical inline message, refuting "no two of
the three modes yield the same message". -/
theorem c9_counterexample :
    add_images fixImgHttps false true = .errText ("Image not available, https://x") ∧
    add_images fixImgHttps true false = .errText ("Image not available, https://x") :=
  ⟨rfl, rfl⟩

/-- Claim C9, amended.  For an https source, network failure and decode
failure share one message that names the URL; a data-URL decode failure
yields "Image not available"; a missing `src` yields "Image url not found".
The three message texts are pairwise distinct, but network and decode
failures of the same https image are not distinguished from each other. -/
theorem c9_messages :
    (∀ (img : HtmlNode) (url : String), getAttr img ("src") = some url →
      pyStartsWith url ("https") = true →
      add_images img false true = .errText ("Image not available, " ++ url) ∧
      add_images img false false = .errText ("Image not available, " ++ url) ∧
      add_images img true false = .errText ("Image not available, " ++ url)) ∧
    (∀ (img : HtmlNode) (url : String), getAttr img ("src") = some url →
      pyStartsWith url ("https") = false → pyStartsWith url ("data") = true →
      add_images img true false = .errText ("Image not available")) ∧
    (∀ img : HtmlNode, getAttr img ("src") = none →
      ∀ nok dok : Bool, add_images img nok dok = .errText ("Image url not found")) ∧
    (∀ url : String,
      ("Image not available, " ++ url) ≠ "Image not available" ∧
      ("Image not available, " ++ url) ≠ ("Image url not found" : String) ∧
      ("Image not available" : String) ≠ "Image url not found") := by
  refine ⟨?_, ?_, ?_, ?_⟩
  · intro img url hsrc hhttps
    unfold add_images
    rw [hsrc]
    simp [hhttps]
  · intro img url hsrc hhttps hdata
    unfold add_images
    rw [hsrc]
    simp [hhttps, hdata]
  · intro img hsrc nok dok
    unfold add_images
    rw [hsrc]
  · intro url
    refine ⟨?_, ?_, by decide⟩
    · intro h
      have hl := congrArg String.length h
      rw [String.length_append] at hl
      rw [show ("Image not available, " : String).length = 21 from rfl] at hl
      rw [show ("Image not available" : String).length = 19 from rfl] at hl
      omega
    · intro h
      have hl := congrArg String.length h
      rw [String.length_append] at hl
      rw [show ("Image not available, " : String).length = 21 from rfl] at hl
      rw [show ("Image url not found" : String).length = 19 from rfl] at hl
      omega

/-- Witness for C9's amended theorem at the https fixture. -/
theorem c9_messages_witness :
    add_images fixImgHttps false false = .errText ("Image not available, " ++ "https://x") :=
  (c9_messages.1 fixImgHttps ("https://x") rfl rfl).2.1

/-! ### C10 — bare text children of list items -/

/-- Claim C10.  A non-CR/LF bare text child of a list item makes the list
handler open a fresh bulleted/numbered paragraph, but no branch of the loop
body emits the string itself: the result is exactly one empty list
paragraph — the text is silently dropped.  The concrete list
`<ol><li>hello</li></ol>` produces one empty `List Number` paragraph and no
run at all. -/
theorem c10_bare_li_text_dropped :
    (∀ (f : Nat) (root : HtmlNode) (dc : Bool) (ln : String) (ch : List String)
        (lvl : Nat) (pp : Option Nat) (ctr : Nat) (s : String),
      skip_crlf (.text s) = false →
      processLiChild (f + 1) root dc ln ch lvl pp ctr (.text s) =
        .ok ([Ev.par ctr (some (if ln = "ol" then "List Number" else "List Bullet")) lvl],
          ctr + 1, pp)) ∧
    process_list 10 fixRoot false fixOlText [("body"), ("html")] none 1 0 =
      .ok ([Ev.par 0 (some ("List Number")) 1], 1, none) := by
  refine ⟨?_, rfl⟩
  intro f root dc ln ch lvl pp ctr s h
  simp only [processLiChild]
  rw [if_neg (by simp [h])]

/-- Witness for C10 at the text node "hello". -/
theorem c10_bare_li_text_dropped_witness :
    processLiChild 1 fixRoot false ("ol") [("ol"), ("body")] 1 none 0 (.text ("hello")) =
      .ok ([Ev.par 0 (some (if ("ol" : String) = "ol" then "List Number" else "List Bullet")) 1],
        1, none) :=
  c10_bare_li_text_dropped.1 0 fixRoot false ("ol") [("ol"), ("body")] 1 none 0 ("hello") rfl

/-! ### C5 — parse_styles on malformed declarations -/

/-- `s.split(sep)` yields exactly one more piece than there are separators. -/
theorem splitChar_length (sep : Char) (l : List Char) :
    (splitChar sep l).length = l.count sep + 1 := by
  induction l with
  | nil => rfl
  | cons c rest ih =>
    simp only [splitChar]
    by_cases h : c == sep
    · rw [if_pos h]
      have hc : c = sep := by simpa using h
      subst hc
      rw [List.length_cons, ih, List.count_cons_self]
    · rw [if_neg h]
      cases hr : splitChar sep rest with
      | nil =>
        rw [hr] at ih
        simp at ih
      | cons hd tl =>
        rw [hr] at ih
        rw [List.length_cons] at ih
        simp only []
        rw [List.length_cons, List.count_cons, if_neg h]
        omega

/-- Colon-free items are dropped without affecting the accumulator. -/
theorem parseStyleItems_filter (items : List (List Char)) :
    ∀ acc, parseStyleItems acc items =
      parseStyleItems acc (items.filter (fun itm => List.any itm (fun c => c == ':'))) := by
  induction items with
  | nil => intro acc; rfl
  | cons itm rest ih =>
    intro acc
    by_cases hc : List.any itm (fun c => c == ':')
    · rw [List.filter_cons, if_pos hc]
      simp only [parseStyleItems]
      rw [if_pos hc, if_pos hc]
      cases hs : splitChar ':' itm with
      | nil => rfl
      | cons k t =>
        cases t with
        | nil => rfl
        | cons v t2 =>
          cases t2 with
          | nil => exact ih _
          | cons w t3 => rfl
    · rw [List.filter_cons, if_neg hc]
      conv_lhs => rw [parseStyleItems]
      rw [if_neg hc]
      exact ih acc

/-- When every item has at most one colon, the loop never raises. -/
theorem parseStyleItems_ok (items : List (List Char)) :
    ∀ acc, (∀ itm ∈ items, itm.count ':' ≤ 1) →
      ∃ l, parseStyleItems acc items = .ok l := by
  induction items with
  | nil => intro acc _; exact ⟨acc, rfl⟩
  | cons itm rest ih =>
    intro acc h
    have hrest : ∀ i ∈ rest, i.count ':' ≤ 1 :=
      fun i hi => h i (List.mem_cons_of_mem _ hi)
    simp only [parseStyleItems]
    by_cases hc : List.any itm (fun c => c == ':')
    · rw [if_pos hc]
      have hmem : ':' ∈ itm := by
        rcases List.any_eq_true.1 hc with ⟨x, hx, hxe⟩
        rwa [show x = ':' from by simpa using hxe] at hx
      have hge : itm.count ':' ≠ 0 := by
        intro h0
        exact (List.count_eq_zero.1 h0) hmem
      have hcnt : itm.count ':' = 1 := by
        have := h itm (List.mem_cons_self _ _)
        omega
      have hlen : (splitChar ':' itm).length = 2 := by
        rw [splitChar_length, hcnt]
      obtain ⟨k, v, hs⟩ : ∃ k v, splitChar ':' itm = [k, v] := by
        cases hsp : splitChar ':' itm with
        | nil => rw [hsp] at hlen; simp at hlen
        | cons a t =>
          cases t with
          | nil => rw [hsp] at hlen; simp at hlen
          | cons b t2 =>
            cases t2 with
            | nil => exact ⟨a, b, rfl⟩
            | cons c t3 => rw [hsp] at hlen; simp at hlen
      rw [hs]
      exact ih _ hrest
    · rw [if_neg hc]
      exact ih acc hrest

/-- An item with two or more colons makes the loop raise. -/
theorem parseStyleItems_error (items : List (List Char)) :
    ∀ acc, (∃ itm ∈ items, 2 ≤ itm.count ':') →
      parseStyleItems acc items = .error () := by
  induction items with
  | nil =>
    intro acc h
    rcases h with ⟨itm, hmem, _⟩
    cases hmem
  | cons itm rest ih =>
    intro acc h
    simp only [parseStyleItems]
    by_cases hbad : 2 ≤ itm.count ':'
    · have hmem : ':' ∈ itm := by
        by_contra hno
        rw [List.count_eq_zero.2 hno] at hbad
        omega
      have hc : List.any itm (fun c => c == ':') = true :=
        List.any_eq_true.2 ⟨':', hmem, by simp⟩
      rw [if_pos hc]
      have hlen : (splitChar ':' itm).length = itm.count ':' + 1 := splitChar_length _ _
      cases hsp : splitChar ':' itm with
      | nil => rfl
      | cons a t =>
        cases t with
        | nil => rfl
        | cons b t2 =>
          cases t2 with
          | nil =>
            rw [hsp] at hlen
            simp at hlen
            omega
          | cons c t3 => rfl
    · rcases h with ⟨i, hmem, hi⟩
      rcases List.mem_cons.1 hmem with rfl | hmem2
      · exact absurd hi hbad
      · have hrest : ∃ i ∈ rest, 2 ≤ i.count ':' := ⟨i, hmem2, hi⟩
        by_cases hc : List.any itm (fun c => c == ':')
        · rw [if_pos hc]
          cases hsp : splitChar ':' itm with
          | nil => rfl
          | cons a t =>
            cases t with
            | nil => rfl
            | cons b t2 =>
              cases t2 with
              | nil => exact ih _ hrest
              | cons c t3 => rfl
        · rw [if_neg hc]
          exact ih acc hrest

/-- Claim C5, amended.  Entries with no `:` separator are dropped silently
and the other entries are still parsed; but an entry with two or more `:`
separators makes `k, v = style_itm.split(":")` raise `ValueError`, which
`parse_styles` propagates, so parsing is raise-free exactly on attributes
whose every `;`-separated item has at most one colon.  The concrete
attribute `"junk;color: red"` drops `junk` and keeps the color entry. -/
theorem c5_style_parsing (sa : String) :
    (∀ (acc : List (String × String)) (items : List (List Char)),
      parseStyleItems acc items =
        parseStyleItems acc (items.filter (fun itm => List.any itm (fun c => c == ':')))) ∧
    ((∀ itm ∈ splitChar ';' sa.data, itm.count ':' ≤ 1) →
      ∃ l, parse_styles (some sa) = .ok l) ∧
    ((∃ itm ∈ splitChar ';' sa.data, 2 ≤ itm.count ':') →
      parse_styles (some sa) = .error ()) ∧
    parse_styles (some ("junk;color: red")) = .ok [(("color"), ("red"))] := by
  refine ⟨fun acc items => parseStyleItems_filter items acc, ?_, ?_, rfl⟩
  · intro h
    simp only [parse_styles]
    by_cases hsa : sa = ""
    · rw [if_pos hsa]
      exact ⟨[], rfl⟩
    · rw [if_neg hsa]
      exact parseStyleItems_ok _ [] h
  · intro h
    simp only [parse_styles]
    by_cases hsa : sa = ""
    · exfalso
      rcases h with ⟨itm, hmem, hcnt⟩
      rw [hsa] at hmem
      rw [show splitChar ';' ("" : String).data = [([] : List Char)] from rfl] at hmem
      rw [List.mem_singleton.1 hmem] at hcnt
      rw [show List.count ':' ([] : List Char) = 0 from rfl] at hcnt
      omega
    · rw [if_neg hsa]
      exact parseStyleItems_error _ [] h

/-- Witness for C5's amended theorem at a well-formed attribute. -/
theorem c5_style_parsing_witness :
    ∃ l, parse_styles (some ("a:b;c")) = .ok l :=
  (c5_style_parsing ("a:b;c")).2.1 (by decide)

/-- Claim C5, counterexample.  The claim says parsing never raises; the
two-colon entry `"a:b:c"` raises `ValueError` (tuple unpacking of a
three-element split), so the attribute yields no parsed entries at all. -/
theorem c5_counterexample :
    parse_styles (some ("a:b:c")) = .error () ∧
    ∀ l : List (String × String), parse_styles (some ("a:b:c")) ≠ .ok l := by
  refine ⟨rfl, ?_⟩
  intro l h
  rw [show parse_styles (some ("a:b:c")) = .error () from rfl] at h
  exact Except.noConfusion h

/-! ### C8 — colour normalization -/

/-- `dropWhile` is the identity when no element satisfies the predicate. -/
theorem dropWhile_eq_self_of_all {p : Char → Bool} :
    ∀ l : List Char, (∀ c ∈ l, p c = false) → l.dropWhile p = l
  | [], _ => rfl
  | c :: rest, h => by
    rw [List.dropWhile_cons, h c (List.mem_cons_self _ _)]
    simp

set_option maxRecDepth 4000 in
/-- Exhaustive check of `"{:02X}"` over all byte values: two characters,
each an uppercase hexadecimal digit. -/
theorem fmt02X_bounded : (List.range 256).all
    (fun n => ((fmt02X n).length == 2) &&
      (fmt02X n).all (fun c => ("0123456789ABCDEF").data.contains c)) = true := by
  decide

theorem fmt02X_length {n : Nat} (h : n < 256) : (fmt02X n).length = 2 := by
  have hall := List.all_eq_true.1 fmt02X_bounded n (List.mem_range.2 h)
  simp only [Bool.and_eq_true] at hall
  simpa using hall.1

theorem fmt02X_chars {n : Nat} (h : n < 256) :
    (fmt02X n).all (fun c => ("0123456789ABCDEF").data.contains c) = true := by
  have hall := List.all_eq_true.1 fmt02X_bounded n (List.mem_range.2 h)
  simp only [Bool.and_eq_true] at hall
  exact hall.2

/-- `str.strip()` is the identity on whitespace-free strings. -/
theorem pyStrip_of_no_ws (l : List Char) (h : ∀ c ∈ l, pyWs c = false) :
    pyStrip (.mk l) = .mk l := by
  unfold pyStrip
  change String.mk (((l.dropWhile pyWs).reverse.dropWhile pyWs).reverse) = .mk l
  rw [dropWhile_eq_self_of_all l h,
    dropWhile_eq_self_of_all l.reverse (fun c hc => h c (List.mem_reverse.1 hc)),
    List.reverse_reverse]

/-- Claim C8.  A matched `rgb(r,g,b)` value with every component below 256
is rewritten to the concatenation of three zero-padded uppercase
hexadecimal pairs — six uppercase hexadecimal digits in all; an unmatched
value passes through unchanged; and a `#`-value is stripped of its leading
hash by the parse-styles value step. -/
theorem c8_rgb_normalization :
    (∀ (s : String) (r g b : Nat), rgbMatch s = some (r, g, b) →
      r < 256 → g < 256 → b < 256 →
      rgb_to_hex s = .mk (fmt02X r ++ fmt02X g ++ fmt02X b) ∧
      (rgb_to_hex s).length = 6 ∧
      (rgb_to_hex s).data.all (fun c => ("0123456789ABCDEF").data.contains c) = true) ∧
    (∀ s : String, rgbMatch s = none → rgb_to_hex s = s) ∧
    (∀ rest : List Char, (∀ c ∈ rest, (c == '#') = false ∧ pyWs c = false) →
      styleEntryVal ('#' :: rest) = .mk rest) := by
  refine ⟨?_, ?_, ?_⟩
  · intro s r g b hm hr hg hb
    have hval : rgb_to_hex s = .mk (fmt02X r ++ fmt02X g ++ fmt02X b) := by
      unfold rgb_to_hex
      rw [hm]
    refine ⟨hval, ?_, ?_⟩
    · rw [hval]
      show (fmt02X r ++ fmt02X g ++ fmt02X b).length = 6
      rw [List.length_append, List.length_append,
        fmt02X_length hr, fmt02X_length hg, fmt02X_length hb]
    · rw [hval]
      show ((fmt02X r ++ fmt02X g ++ fmt02X b).all
        (fun c => ("0123456789ABCDEF").data.contains c)) = true
      rw [List.all_append, List.all_append,
        fmt02X_chars hr, fmt02X_chars hg, fmt02X_chars hb]
      rfl
  · intro s hm
    unfold rgb_to_hex
    rw [hm]
  · intro rest hrest
    unfold styleEntryVal
    rw [if_pos (by simp)]
    have hno : ∀ c ∈ '#' :: rest, pyWs c = false := by
      intro c hc
      rcases List.mem_cons.1 hc with rfl | hc2
      · rfl
      · exact (hrest c hc2).2
    rw [pyStrip_of_no_ws _ hno]
    unfold lstripHash
    change String.mk (List.dropWhile (fun c => c == '#') ('#' :: rest)) = .mk rest
    rw [List.dropWhile_cons]
    simp only [beq_self_eq_true, if_true]
    rw [dropWhile_eq_self_of_all rest (fun c hc => (hrest c hc).1)]

/-- Witness for C8 at `rgb(1,22,255)` (which normalizes to `0116FF`). -/
theorem c8_rgb_normalization_witness :
    rgb_to_hex ("rgb(1,22,255)") = .mk (fmt02X 1 ++ fmt02X 22 ++ fmt02X 255) ∧
    (rgb_to_hex ("rgb(1,22,255)")).length = 6 :=
  ⟨(c8_rgb_normalization.1 ("rgb(1,22,255)") 1 22 255 rfl (by decide) (by decide)
      (by decide)).1,
   (c8_rgb_normalization.1 ("rgb(1,22,255)") 1 22 255 rfl (by decide) (by decide)
      (by decide)).2.1⟩

/-! ### C7 — table grid shape -/

/-- Claim C7, amended.  On a successful conversion of a table with at least
one `<tr>`, the emitted grid's per-row cell counts are exactly the cell
counts of the row nodes (so the row count matches) and the column count is
their maximum; the cell loop only fills the cells it visits, so the ragged
fixture `[[a,b,c],[d,e]]` yields a 3-column grid (row two's third cell
keeps the empty default).  But a table with children and no `<tr>` at all
makes `max()` raise `ValueError` instead of emitting anything. -/
theorem c7_table_grid :
    (∀ (fuel : Nat) (root table : HtmlNode) (chain : List String) (ctr : Nat)
        (evs : List Ev) (ctr2 : Nat),
      (childrenOf table).isEmpty = false →
      add_docx_tables (fuel + 1) root table chain ctr = .ok (evs, ctr2) →
      ∃ (g : GridShape) (tail : List Ev),
        evs = Ev.tbl g :: tail ∧
        g.cellsPerRow = (findAllChain [("tr")] chain table).map
          (fun rc => (findAllChain [("td"), ("th")] rc.1 rc.2).length) ∧
        g.cellsPerRow.length = (findAllChain [("tr")] chain table).length ∧
        listMax g.cellsPerRow = some g.ncols) ∧
    (∀ (fuel : Nat) (root table : HtmlNode) (chain : List String) (ctr : Nat),
      (childrenOf table).isEmpty = false →
      findAllChain [("tr")] chain table = [] →
      add_docx_tables (fuel + 1) root table chain ctr = .error ()) ∧
    firstGrid (add_docx_tables 10 fixRoot fixTblRagged [("body"), ("html")] 0) =
      some { ncols := 3, cellsPerRow := [3, 2] } := by
  refine ⟨?_, ?_, rfl⟩
  · intro fuel root table chain ctr evs ctr2 hne hok
    unfold add_docx_tables at hok
    rw [if_neg (by simp [hne])] at hok
    simp only [] at hok
    cases hm : listMax (((findAllChain [("tr")] chain table).map
        (fun rc => findAllChain [("td"), ("th")] rc.1 rc.2)).map List.length) with
    | none =>
      rw [hm] at hok
      exact Except.noConfusion hok
    | some columns =>
      rw [hm] at hok
      simp only [] at hok
      cases hp : processTableRows fuel root ctr ((findAllChain [("tr")] chain table).map
          (fun rc => findAllChain [("td"), ("th")] rc.1 rc.2)) with
      | error e =>
        rw [hp] at hok
        exact Except.noConfusion hok
      | ok p =>
        obtain ⟨evs0, c2⟩ := p
        rw [hp] at hok
        simp only [Except.ok.injEq, Prod.mk.injEq] at hok
        refine ⟨⟨columns, ((findAllChain [("tr")] chain table).map
            (fun rc => findAllChain [("td"), ("th")] rc.1 rc.2)).map List.length⟩,
          evs0, ?_, ?_, ?_, ?_⟩
        · rw [← hok.1]
          rfl
        · rw [List.map_map]
          rfl
        · rw [List.length_map, List.length_map]
        · exact hm
  · intro fuel root table chain ctr hne hrows
    unfold add_docx_tables
    rw [if_neg (by simp [hne])]
    simp only [hrows, List.map_nil]
    rfl

/-- Witness for C7's amended theorem at the ragged fixture. -/
theorem c7_table_grid_witness :
    ∃ (g : GridShape) (tail : List Ev),
      ([Ev.tbl { ncols := 3, cellsPerRow := [3, 2] },
        Ev.par 0 none 0,
        Ev.textRun 0 [("td"), ("tr"), ("table"), ("body"), ("html")] []
          { text := ("a"), bold := none, italic := none, underline := none, color := none },
        Ev.par 1 none 0,
        Ev.textRun 1 [("td"), ("tr"), ("table"), ("body"), ("html")] []
          { text := ("b"), bold := none, italic := none, underline := none, color := none },
        Ev.par 2 none 0,
        Ev.textRun 2 [("td"), ("tr"), ("table"), ("body"), ("html")] []
          { text := ("c"), bold := none, italic := none, underline := none, color := none },
        Ev.par 3 none 0,
        Ev.textRun 3 [("td"), ("tr"), ("table"), ("body"), ("html")] []
          { text := ("d"), bold := none, italic := none, underline := none, color := none },
        Ev.par 4 none 0,
        Ev.textRun 4 [("td"), ("tr"), ("table"), ("body"), ("html")] []
          { text := ("e"), bold := none, italic := none, underline := none, color := none }]
        : List Ev) = Ev.tbl g :: tail ∧
      g.cellsPerRow = (findAllChain [("tr")] [("body"), ("html")] fixTblRagged).map
        (fun rc => (findAllChain [("td"), ("th")] rc.1 rc.2).length) ∧
      g.cellsPerRow.length =
        (findAllChain [("tr")] [("body"), ("html")] fixTblRagged).length ∧
      listMax g.cellsPerRow = some g.ncols :=
  c7_table_grid.1 9 fixRoot fixTblRagged [("body"), ("html")] 0 _ 5 rfl rfl

/-- Claim C7, counterexample.  A table whose children contain no row makes
the `max()` over an empty sequence raise, refuting the for-every-table
claim. -/
theorem c7_counterexample :
    add_docx_tables 10 fixRoot fixTblBad [("body"), ("html")] 0 = .error () := rfl

/-! ### C1 — style flags and ancestor gating -/

/-- Claim C1, counterexample.  For `<p style="font-family: bold">x</p>` the
run emitted for `x` carries `bold = True` although neither `b` nor
`strong` occurs in its ancestor chain: the `font-family` check in
`add_text_color` overrides the ancestor gating, refuting "bold is true
only if a qualifying ancestor tag is present". -/
theorem c1_counterexample :
    (runsOfResult (dispatchStep 10 fixRoot 0 none
        { before := [], after := [], chain := [("body"), ("html")], node := fixPFF })).map
      (fun ar => (ar.2.bold, decide (("b") ∈ ar.1), decide (("strong") ∈ ar.1))) =
      [(some true, false, false)] := rfl

/-- Claim C1, amended.  Every run emitted by the paragraph walker or the
top-level dispatcher is gated: italic requires an `i`/`em` ancestor,
underline a `u` ancestor, and bold a `b`/`strong` ancestor — except that
bold may also come from a `font-family` declaration containing `"bold"` in
the styles snapshot (the re-validation in `check_style_parent` otherwise
erases sibling mutations).  The two concrete examples hold: in
`<p><b>a</b><i>t</i></p>` the run for `t` has bold false and italic true
despite the preceding bold sibling, and in `<p><b><i>t</i></b></p>` the
run has bold and italic both true. -/
theorem c1_style_gating :
    (∀ (fuel : Nat) (root : HtmlNode) (pid : Nat) (tag : HtmlNode) (anc : List String)
        (cell : Bool) (styles : Option StyleDict) (ctr : Nat)
        (x : List Ev × Nat × Option StyleDict),
      process_p_child_tags fuel root pid tag anc cell styles ctr = .ok x →
      ∀ e ∈ x.1, GoodEv e) ∧
    (∀ (fuel : Nat) (root : HtmlNode) (ctr : Nat) (lp : Option Nat) (it : DescItem)
        (x : List Ev × Nat × Option Nat),
      dispatchStep fuel root ctr lp it = .ok x → ∀ e ∈ x.1, GoodEv e) ∧
    (runsOfResult (dispatchStep 10 fixRoot 0 none
        { before := [], after := [], chain := [("body"), ("html")], node := fixPBI })).map
      (fun ar => (ar.2.bold, ar.2.italic)) =
      [(some true, some false), (some false, some true)] ∧
    (runsOfResult (dispatchStep 10 fixRoot 0 none
        { before := [], after := [], chain := [("body"), ("html")], node := fixPBII })).map
      (fun ar => (ar.2.bold, ar.2.italic)) = [(some true, some true)] := by
  refine ⟨?_, ?_, rfl, rfl⟩
  · intro fuel root pid tag anc cell styles ctr x hx
    exact (goodAll fuel).1 root pid tag anc cell styles ctr x hx
  · intro fuel root ctr lp it x hx
    exact (goodAll fuel).2.2.2.2.2.2.2.2.2.2.2.2.2.2 root ctr lp it x hx

/-- Witness for C1's amended theorem: the gated run of
`<p><b><i>t</i></b></p>` as emitted by the dispatcher. -/
theorem c1_style_gating_witness :
    GoodEv (Ev.textRun 0 [("i"), ("b"), ("p"), ("body"), ("html")]
      [(("bold"), .b true), (("span"), .d []), (("italic"), .b true),
       (("underline"), .b false)]
      { text := ("t"), bold := some true, italic := some true, underline := some false,
        color := none }) :=
  c1_style_gating.2.1 10 fixRoot 0 none
    { before := [], after := [], chain := [("body"), ("html")], node := fixPBII }
    ([Ev.par 0 none 0,
      Ev.textRun 0 [("i"), ("b"), ("p"), ("body"), ("html")]
        [(("bold"), .b true), (("span"), .d []), (("italic"), .b true),
         (("underline"), .b false)]
        { text := ("t"), bold := some true, italic := some true, underline := some false,
          color := none }], 1, none) rfl _ (by decide)

/-! ### C2 — anchor-id pre-pass -/

theorem getAttr_isElem {n : HtmlNode} {k v : String} (h : getAttr n k = some v) :
    isElem n = true := by
  cases n with
  | text s => simp [getAttr] at h
  | elem t a cs => rfl

theorem hasId_iff {v : String} {n : HtmlNode} :
    hasId v n = true ↔ getAttr n ("id") = some v := by
  simp [hasId]

theorem setAttrAtL_get (k v : String) :
    ∀ (cs : List HtmlNode) (i : Nat) (p : List Nat) (j : Nat),
      (setAttrAtL cs i p k v)[j]? =
        if j = i then (cs[j]?).map (fun c => setAttrAt c p k v) else cs[j]?
  | [], i, p, j => by
    by_cases h : j = i <;> simp [setAttrAtL, h]
  | c :: cs, 0, p, 0 => by simp [setAttrAtL]
  | c :: cs, 0, p, j + 1 => by simp [setAttrAtL]
  | c :: cs, i + 1, p, 0 => by simp [setAttrAtL]
  | c :: cs, i + 1, p, j + 1 => by
    simp only [setAttrAtL, List.getElem?_cons_succ]
    rw [setAttrAtL_get k v cs i p j]
    by_cases h : j = i <;> simp [h]

theorem getNode_set_isElem (k v : String) :
    ∀ (p : List Nat) (t : HtmlNode) (q : List Nat),
      (getNode (setAttrAt t p k v) q).map isElem = (getNode t q).map isElem
  | [], .text s, q => rfl
  | [], .elem tag a cs, [] => rfl
  | [], .elem tag a cs, j :: q => rfl
  | i :: p, .text s, q => rfl
  | i :: p, .elem tag a cs, [] => rfl
  | i :: p, .elem tag a cs, j :: q => by
    show (match (setAttrAtL cs i p k v)[j]? with
        | some c => getNode c q | none => none).map isElem =
      (match cs[j]? with | some c => getNode c q | none => none).map isElem
    rw [setAttrAtL_get]
    by_cases h : j = i
    · rw [if_pos h]
      cases hc : cs[j]? with
      | none => rfl
      | some c =>
        show (getNode (setAttrAt c p k v) q).map isElem = (getNode c q).map isElem
        exact getNode_set_isElem k v p c q
    · rw [if_neg h]

theorem getAttrAt_set (k k' v : String) :
    ∀ (p : List Nat) (t : HtmlNode) (q : List Nat),
      getAttrAt (setAttrAt t p k v) q k' =
        if q = p ∧ k' = k ∧ (getNode t p).map isElem = some true then some v
        else getAttrAt t q k'
  | [], .text s, q => by
    rw [if_neg (by simp [getNode, isElem])]
    rfl
  | [], .elem tag a cs, [] => by
    by_cases hk : k' = k
    · subst hk
      rw [if_pos ⟨rfl, rfl, by rfl⟩]
      show lookupA (setA a k' v) k' = some v
      exact lookupA_setA_self a k' v
    · rw [if_neg (by simp [hk])]
      show lookupA (setA a k v) k' = lookupA a k'
      exact lookupA_setA_ne a k k' v (fun hh => hk hh.symm)
  | [], .elem tag a cs, j :: q => by
    rw [if_neg (by simp)]
    rfl
  | i :: p, .text s, q => by
    rw [if_neg (by simp [getNode])]
    rfl
  | i :: p, .elem tag a cs, [] => by
    rw [if_neg (by simp)]
    rfl
  | i :: p, .elem tag a cs, j :: q => by
    show (match (setAttrAtL cs i p k v)[j]? with
        | some c => getNode c q | none => none).bind (fun n => getAttr n k') = _
    rw [setAttrAtL_get]
    by_cases hj : j = i
    · subst hj
      rw [if_pos rfl]
      cases hc : cs[j]? with
      | none =>
        have hnode : getNode (HtmlNode.elem tag a cs) (j :: p) = none := by
          show (match cs[j]? with | some c => getNode c p | none => none) = none
          rw [hc]
        have hatt : getAttrAt (HtmlNode.elem tag a cs) (j :: q) k' = none := by
          show (match cs[j]? with | some c => getNode c q | none => none).bind
              (fun n => getAttr n k') = none
          rw [hc]
          rfl
        rw [if_neg (by simp [hnode]), hatt]
        rfl
      | some c =>
        have hnode : getNode (HtmlNode.elem tag a cs) (j :: p) = getNode c p := by
          show (match cs[j]? with | some c => getNode c p | none => none) = getNode c p
          rw [hc]
        have hatt : getAttrAt (HtmlNode.elem tag a cs) (j :: q) k' = getAttrAt c q k' := by
          show (match cs[j]? with | some c => getNode c q | none => none).bind
              (fun n => getAttr n k') = getAttrAt c q k'
          rw [hc]
          rfl
        show getAttrAt (setAttrAt c p k v) q k' = _
        rw [getAttrAt_set k k' v p c q, hnode, hatt]
        by_cases hqp : q = p
        · subst hqp
          simp
        · rw [if_neg (by simp [hqp]), if_neg (by simp [hqp])]
    · rw [if_neg hj, if_neg (by simp [hj])]
      rfl

theorem splitChar_pieces_no_sep (sep : Char) :
    ∀ (l : List Char) (piece : List Char), piece ∈ splitChar sep l → sep ∉ piece
  | [], piece, h => by
    simp only [splitChar, List.mem_singleton] at h
    subst h
    simp
  | c :: rest, piece, h => by
    simp only [splitChar] at h
    by_cases hc : c == sep
    · rw [if_pos hc] at h
      rcases List.mem_cons.1 h with rfl | h2
      · simp
      · exact splitChar_pieces_no_sep sep rest piece h2
    · rw [if_neg hc] at h
      cases hr : splitChar sep rest with
      | nil =>
        rw [hr] at h
        simp only [List.mem_singleton] at h
        subst h
        intro hmem
        rcases List.mem_singleton.1 hmem with rfl
        exact hc (beq_self_eq_true _)
      | cons hd tl =>
        rw [hr] at h
        rcases List.mem_cons.1 h with rfl | h2
        · intro hmem
          rcases List.mem_cons.1 hmem with rfl | hmem2
          · exact hc (beq_self_eq_true _)
          · exact splitChar_pieces_no_sep sep rest hd
              (hr ▸ List.mem_cons_self hd tl) hmem2
        · exact splitChar_pieces_no_sep sep rest piece
            (hr ▸ List.mem_cons_of_mem hd h2)

theorem splitChar_no_sep_single (sep : Char) :
    ∀ l : List Char, (∀ c ∈ l, c ≠ sep) → splitChar sep l = [l]
  | [], _ => rfl
  | c :: rest, h => by
    simp only [splitChar]
    rw [if_neg (by simpa using h c (List.mem_cons_self _ _))]
    rw [splitChar_no_sep_single sep rest (fun x hx => h x (List.mem_cons_of_mem _ hx))]

theorem findPathL_sound (pred : HtmlNode → Bool) :
    ∀ (cs : List HtmlNode) (i : Nat) (q : List Nat), findPathL pred cs i = some q →
      ∃ j c q', cs[j]? = some c ∧ q = (i + j) :: q' ∧ findPath pred c = some q'
  | [], i, q, h => by simp [findPathL] at h
  | c0 :: cs, i, q, h => by
    simp only [findPathL] at h
    cases hf : findPath pred c0 with
    | some q0 =>
      rw [hf] at h
      simp only [Option.some.injEq] at h
      exact ⟨0, c0, q0, by simp, by rw [← h]; simp, hf⟩
    | none =>
      rw [hf] at h
      obtain ⟨j, c, q', hj, hq, hfp⟩ := findPathL_sound pred cs (i + 1) q h
      refine ⟨j + 1, c, q', by simpa using hj, ?_, hfp⟩
      rw [hq]
      congr 1
      omega

theorem findPath_sound (pred : HtmlNode → Bool) :
    ∀ (q : List Nat) (n : HtmlNode), findPath pred n = some q →
      ∃ m, getNode n q = some m ∧ pred m = true := by
  intro q
  induction q with
  | nil =>
    intro n h
    unfold findPath at h
    by_cases hp : pred n
    · exact ⟨n, by cases n <;> rfl, hp⟩
    · rw [if_neg hp] at h
      cases n with
      | text s => exact absurd h (by simp)
      | elem tag a cs =>
        obtain ⟨j, c, q', hj, hq, hfp⟩ := findPathL_sound pred cs 0 [] h
        exact List.noConfusion hq
  | cons j0 q0 ih =>
    intro n h
    unfold findPath at h
    by_cases hp : pred n
    · rw [if_pos hp] at h
      simp at h
    · rw [if_neg hp] at h
      cases n with
      | text s => exact absurd h (by simp)
      | elem tag a cs =>
        obtain ⟨j, c, q', hj, hq, hfp⟩ := findPathL_sound pred cs 0 (j0 :: q0) h
        simp only [Nat.zero_add, List.cons.injEq] at hq
        obtain ⟨h1, h2⟩ := hq
        subst h1
        subst h2
        obtain ⟨m, hm, hpm⟩ := ih c hfp
        refine ⟨m, ?_, hpm⟩
        show (match cs[j0]? with | some c => getNode c q0 | none => none) = some m
        rw [hj]
        exact hm

theorem findPathL_none (pred : HtmlNode → Bool) :
    ∀ (cs : List HtmlNode) (i : Nat), findPathL pred cs i = none →
      ∀ (j : Nat) (c : HtmlNode), cs[j]? = some c → findPath pred c = none
  | [], i, h, j, c, hj => by simp at hj
  | c0 :: cs, i, h, j, c, hj => by
    simp only [findPathL] at h
    cases hf : findPath pred c0 with
    | some q0 =>
      rw [hf] at h
      exact Option.noConfusion h
    | none =>
      rw [hf] at h
      cases j with
      | zero =>
        simp only [List.getElem?_cons_zero, Option.some.injEq] at hj
        rw [← hj]
        exact hf
      | succ j =>
        exact findPathL_none pred cs (i + 1) h j c (by simpa using hj)

theorem findPath_complete (pred : HtmlNode → Bool) :
    ∀ (q : List Nat) (n : HtmlNode) (m : HtmlNode), getNode n q = some m →
      pred m = true → findPath pred n ≠ none := by
  intro q
  induction q with
  | nil =>
    intro n m hm hp hnone
    have hnm : n = m := by
      simpa [getNode] using hm
    unfold findPath at hnone
    rw [if_pos (hnm ▸ hp)] at hnone
    exact Option.noConfusion hnone
  | cons j q0 ih =>
    intro n m hm hp hnone
    unfold findPath at hnone
    by_cases hpn : pred n
    · rw [if_pos hpn] at hnone
      exact Option.noConfusion hnone
    · rw [if_neg hpn] at hnone
      cases n with
      | text s => exact absurd hm (by simp [getNode])
      | elem tag a cs =>
        cases hc : cs[j]? with
        | none =>
          rw [show getNode (HtmlNode.elem tag a cs) (j :: q0) = none from by
            show (match cs[j]? with | some c => getNode c q0 | none => none) = none
            rw [hc]] at hm
          exact Option.noConfusion hm
        | some c =>
          have hm2 : getNode c q0 = some m := by
            rw [show getNode (HtmlNode.elem tag a cs) (j :: q0) = getNode c q0 from by
              show (match cs[j]? with | some c => getNode c q0 | none => none) = getNode c q0
              rw [hc]] at hm
            exact hm
          exact ih c m hm2 hp (findPathL_none pred cs 0 hnone j c hc)

theorem anchorStep_cases (t : HtmlNode) (p : List Nat) :
    anchorStep t p = t ∨
    ∃ frag qf, hrefFrag t p = some frag ∧ ('#') ∉ frag ∧
      findPath (hasId (.mk frag)) t = some qf ∧
      getAttrAt t qf ("id") = some (.mk frag) ∧
      anchorStep t p = setAttrAt (setAttrAt t qf ("id") (.mk (frag.take 40))) p ("href")
        (.mk ('#' :: frag.take 40)) := by
  unfold anchorStep
  cases hn : getNode t p with
  | none => exact Or.inl rfl
  | some a =>
    simp only []
    cases ha : getAttr a ("href") with
    | none => exact Or.inl rfl
    | some href =>
      simp only []
      cases hs : splitChar '#' href.data with
      | nil => exact Or.inl rfl
      | cons p0 rest =>
        cases rest with
        | nil => exact Or.inl rfl
        | cons frag rest2 =>
          simp only []
          cases hf : findPath (hasId (.mk frag)) t with
          | none => exact Or.inl rfl
          | some qf =>
            simp only []
            refine Or.inr ⟨frag, qf, ?_, ?_, hf, ?_, rfl⟩
            · show (match getAttrAt t p ("href") with
                | some h => (splitChar '#' h.data)[1]? | none => none) = some frag
              have hat : getAttrAt t p ("href") = some href := by
                show (getNode t p).bind (fun n => getAttr n ("href")) = some href
                rw [hn]
                exact ha
              rw [hat]
              simp only []
              rw [hs]
              simp
            · exact splitChar_pieces_no_sep '#' href.data frag
                (hs ▸ List.mem_cons_of_mem p0 (List.mem_cons_self frag rest2))
            · obtain ⟨m, hm, hpm⟩ := findPath_sound _ qf t hf
              show (getNode t qf).bind (fun n => getAttr n ("id")) = some (.mk frag)
              rw [hm]
              exact hasId_iff.1 hpm

theorem anchorStep_href_ne (t : HtmlNode) (p ℓ : List Nat) (hne : p ≠ ℓ) :
    getAttrAt (anchorStep t p) ℓ ("href") = getAttrAt t ℓ ("href") := by
  rcases anchorStep_cases t p with h | ⟨frag, qf, _, _, _, _, h⟩
  · rw [h]
  · rw [h, getAttrAt_set, if_neg (fun hh => hne hh.1.symm), getAttrAt_set,
      if_neg (fun hh => absurd hh.2.1 (by decide))]

theorem anchorStep_id_phase1 (t : HtmlNode) (p tp : List Nat) (I : List Char)
    (hlong : 40 < I.length)
    (hid : getAttrAt t tp ("id") = some (.mk I))
    (huniq : ∀ q, getAttrAt t q ("id") = some (.mk I) → q = tp)
    (hfrag : hrefFrag t p ≠ some I) :
    getAttrAt (anchorStep t p) tp ("id") = some (.mk I) ∧
    (∀ q, getAttrAt (anchorStep t p) q ("id") = some (.mk I) → q = tp) := by
  rcases anchorStep_cases t p with h | ⟨frag, qf, hf, hns, hfp, hqid, h⟩
  · rw [h]
    exact ⟨hid, huniq⟩
  · have hfragI : frag ≠ I := by
      intro hh
      rw [hh] at hf
      exact hfrag hf
    have htake : (String.mk (frag.take 40)) ≠ .mk I := by
      intro hh
      have hlen := congrArg String.length hh
      have e1 : (String.mk (frag.take 40)).length = (frag.take 40).length := rfl
      have e2 : (String.mk I).length = I.length := rfl
      rw [e1, e2, List.length_take] at hlen
      omega
    have htq : tp ≠ qf := by
      intro hh
      rw [← hh] at hqid
      have := hqid.symm.trans hid
      have := Option.some.inj this
      exact hfragI (by simpa using congrArg String.data this)
    constructor
    · rw [h, getAttrAt_set, if_neg (fun hh => absurd hh.2.1 (by decide)),
        getAttrAt_set, if_neg (fun hh => htq hh.1)]
      exact hid
    · intro q hq
      rw [h, getAttrAt_set, if_neg (fun hh => absurd hh.2.1 (by decide)),
        getAttrAt_set] at hq
      by_cases hqq : q = qf ∧ ("id" : String) = "id" ∧
          (getNode t qf).map isElem = some true
      · rw [if_pos hqq] at hq
        exact absurd (Option.some.inj hq) htake
      · rw [if_neg hqq] at hq
        exact huniq q hq

theorem anchorStep_id_phase2 (t : HtmlNode) (p tp : List Nat) (J : List Char)
    (hshort : J.length ≤ 40)
    (hid : getAttrAt t tp ("id") = some (.mk J)) :
    getAttrAt (anchorStep t p) tp ("id") = some (.mk J) := by
  rcases anchorStep_cases t p with h | ⟨frag, qf, hf, hns, hfp, hqid, h⟩
  · rw [h]
    exact hid
  · rw [h, getAttrAt_set, if_neg (fun hh => absurd hh.2.1 (by decide)), getAttrAt_set]
    by_cases htq : tp = qf
    · have hfJ : frag = J := by
        rw [← htq] at hqid
        have := hqid.symm.trans hid
        have := Option.some.inj this
        simpa using congrArg String.data this
      split_ifs with hcond
      · rw [hfJ, List.take_of_length_le hshort]
      · exact hid
    · rw [if_neg (fun hh => htq hh.1)]
      exact hid

theorem anchorStep_frag_ne (t : HtmlNode) (p p2 : List Nat) (I : List Char)
    (hlong : 40 < I.length) (h2 : hrefFrag t p2 ≠ some I) :
    hrefFrag (anchorStep t p) p2 ≠ some I := by
  rcases anchorStep_cases t p with h | ⟨frag, qf, hf, hns, hfp, hqid, h⟩
  · rw [h]
    exact h2
  · rw [h]
    unfold hrefFrag
    rw [getAttrAt_set]
    by_cases hp2 : p2 = p
    · subst hp2
      split_ifs with hcond
      · intro hq
        have hsp : splitChar '#' (String.mk ('#' :: frag.take 40)).data =
            [[], frag.take 40] := by
          show splitChar '#' ('#' :: frag.take 40) = [[], frag.take 40]
          have hstep : splitChar '#' ('#' :: frag.take 40) =
              [] :: splitChar '#' (frag.take 40) := by
            simp [splitChar]
          rw [hstep, splitChar_no_sep_single '#' (frag.take 40)
            (fun c hc hcE => hns (hcE ▸ List.take_subset _ _ hc))]
        simp only [] at hq
        rw [hsp] at hq
        simp only [List.getElem?_cons_succ, List.getElem?_cons_zero,
          Option.some.injEq] at hq
        have hlen := congrArg List.length hq
        rw [List.length_take] at hlen
        omega
      · rw [getAttrAt_set, if_neg (fun hh => absurd hh.2.1 (by decide))]
        exact h2
    · rw [if_neg (fun hh => hp2 hh.1)]
      rw [getAttrAt_set, if_neg (fun hh => absurd hh.2.1 (by decide))]
      exact h2

theorem foldP (ℓ tp : List Nat) (I : List Char) (hlong : 40 < I.length) (h0 : String) :
    ∀ (ps : List (List Nat)) (t : HtmlNode),
      (∀ p' ∈ ps, p' ≠ ℓ) →
      (∀ p' ∈ ps, hrefFrag t p' ≠ some I) →
      getAttrAt t ℓ ("href") = some h0 →
      getAttrAt t tp ("id") = some (.mk I) →
      (∀ q, getAttrAt t q ("id") = some (.mk I) → q = tp) →
      getAttrAt (ps.foldl anchorStep t) ℓ ("href") = some h0 ∧
      getAttrAt (ps.foldl anchorStep t) tp ("id") = some (.mk I) ∧
      (∀ q, getAttrAt (ps.foldl anchorStep t) q ("id") = some (.mk I) → q = tp)
  | [], t, _, _, h1, h2, h3 => ⟨h1, h2, h3⟩
  | p :: ps, t, hne, hfr, h1, h2, h3 => by
    simp only [List.foldl_cons]
    have hpne := hne p (List.mem_cons_self _ _)
    have hpfr := hfr p (List.mem_cons_self _ _)
    obtain ⟨h2n, h3n⟩ := anchorStep_id_phase1 t p tp I hlong h2 h3 hpfr
    exact foldP ℓ tp I hlong h0 ps (anchorStep t p)
      (fun q hq => hne q (List.mem_cons_of_mem _ hq))
      (fun q hq => anchorStep_frag_ne t p q I hlong (hfr q (List.mem_cons_of_mem _ hq)))
      ((anchorStep_href_ne t p ℓ hpne).trans h1) h2n h3n

theorem foldJ (ℓ tp : List Nat) (J : List Char) (hshort : J.length ≤ 40) (hv : String) :
    ∀ (ps : List (List Nat)) (t : HtmlNode),
      (∀ p' ∈ ps, p' ≠ ℓ) →
      getAttrAt t ℓ ("href") = some hv →
      getAttrAt t tp ("id") = some (.mk J) →
      getAttrAt (ps.foldl anchorStep t) ℓ ("href") = some hv ∧
      getAttrAt (ps.foldl anchorStep t) tp ("id") = some (.mk J)
  | [], t, _, h1, h2 => ⟨h1, h2⟩
  | p :: ps, t, hne, h1, h2 => by
    simp only [List.foldl_cons]
    exact foldJ ℓ tp J hshort hv ps (anchorStep t p)
      (fun q hq => hne q (List.mem_cons_of_mem _ hq))
      ((anchorStep_href_ne t p ℓ (hne p (List.mem_cons_self _ _))).trans h1)
      (anchorStep_id_phase2 t p tp J hshort h2)

theorem anchorStep_at_target (t : HtmlNode) (ℓ tp : List Nat) (I : List Char) (h0 : String)
    (hhref : getAttrAt t ℓ ("href") = some h0)
    (hfrag : (splitChar '#' h0.data)[1]? = some I)
    (hid : getAttrAt t tp ("id") = some (.mk I))
    (huniq : ∀ q, getAttrAt t q ("id") = some (.mk I) → q = tp) :
    getAttrAt (anchorStep t ℓ) ℓ ("href") = some (.mk ('#' :: I.take 40)) ∧
    getAttrAt (anchorStep t ℓ) tp ("id") = some (.mk (I.take 40)) := by
  obtain ⟨a, hna, haa⟩ : ∃ a, getNode t ℓ = some a ∧ getAttr a ("href") = some h0 := by
    unfold getAttrAt at hhref
    cases hn : getNode t ℓ with
    | none => rw [hn] at hhref; exact Option.noConfusion hhref
    | some a =>
      rw [hn] at hhref
      exact ⟨a, rfl, hhref⟩
  obtain ⟨p0, rest2, hsp⟩ : ∃ p0 rest2, splitChar '#' h0.data = p0 :: I :: rest2 := by
    cases hs : splitChar '#' h0.data with
    | nil => rw [hs] at hfrag; exact Option.noConfusion hfrag
    | cons x r =>
      cases r with
      | nil =>
        rw [hs] at hfrag
        simp at hfrag
      | cons y r2 =>
        rw [hs] at hfrag
        simp only [List.getElem?_cons_succ, List.getElem?_cons_zero,
          Option.some.injEq] at hfrag
        exact ⟨x, r2, by rw [hfrag]⟩
  obtain ⟨m, hnm, ham⟩ : ∃ m, getNode t tp = some m ∧ getAttr m ("id") = some (.mk I) := by
    unfold getAttrAt at hid
    cases hn : getNode t tp with
    | none => rw [hn] at hid; exact Option.noConfusion hid
    | some m =>
      rw [hn] at hid
      exact ⟨m, rfl, hid⟩
  have hfind : findPath (hasId (.mk I)) t = some tp := by
    cases hfp : findPath (hasId (.mk I)) t with
    | none => exact absurd hfp (findPath_complete _ tp t m hnm (hasId_iff.2 ham))
    | some qf =>
      obtain ⟨m2, hm2, hpm2⟩ := findPath_sound _ qf t hfp
      have : getAttrAt t qf ("id") = some (.mk I) := by
        show (getNode t qf).bind (fun n => getAttr n ("id")) = some (.mk I)
        rw [hm2]
        exact hasId_iff.1 hpm2
      rw [huniq qf this]
  have hstep : anchorStep t ℓ =
      setAttrAt (setAttrAt t tp ("id") (.mk (I.take 40))) ℓ ("href")
        (.mk ('#' :: I.take 40)) := by
    unfold anchorStep
    rw [hna]
    simp only []
    rw [haa]
    simp only []
    rw [hsp]
    simp only []
    rw [hfind]
  have haElem : (getNode t ℓ).map isElem = some true := by
    rw [hna]
    simp [getAttr_isElem haa]
  have hmElem : (getNode t tp).map isElem = some true := by
    rw [hnm]
    simp [getAttr_isElem ham]
  constructor
  · rw [hstep, getAttrAt_set, if_pos ⟨rfl, rfl, by rw [getNode_set_isElem]; exact haElem⟩]
  · rw [hstep, getAttrAt_set, if_neg (fun hh => absurd hh.2.1 (by decide)),
      getAttrAt_set, if_pos ⟨rfl, rfl, hmElem⟩]

/-- Claim C2, amended.  For a collected anchor (its `href` fragment must
match `#[a-zA-Z0-9-]{41,}` to be collected at all) whose fragment `I` is
the document's unique id, longer than 40 characters, and not targeted by
any earlier collected anchor, the pre-pass rewrites the anchor's `href` to
`#` plus the first 40 characters of `I` and the target's `id` to the same
40 characters, so the link remains resolvable. -/
theorem c2_anchor_truncation
    (t body : HtmlNode) (bp tp ℓ : List Nat) (I : List Char) (h0 : String)
    (pre post : List (List Nat))
    (hbp : findPath (isNamed ("body")) t = some bp)
    (hbody : getNode t bp = some body)
    (hsplit : (anchorPathsNode body).map (fun sp => bp ++ sp) = pre ++ ℓ :: post)
    (hpre : ∀ p' ∈ pre, p' ≠ ℓ)
    (hpost : ∀ p' ∈ post, p' ≠ ℓ)
    (hhref : getAttrAt t ℓ ("href") = some h0)
    (hfrag : (splitChar '#' h0.data)[1]? = some I)
    (hlong : 40 < I.length)
    (hprefrag : ∀ p' ∈ pre, hrefFrag t p' ≠ some I)
    (hid : getAttrAt t tp ("id") = some (.mk I))
    (huniq : ∀ q, getAttrAt t q ("id") = some (.mk I) → q = tp) :
    getAttrAt (check_anchor_id_length t) ℓ ("href") = some (.mk ('#' :: I.take 40)) ∧
    getAttrAt (check_anchor_id_length t) tp ("id") = some (.mk (I.take 40)) := by
  unfold check_anchor_id_length
  rw [hbp]
  simp only []
  rw [hbody]
  simp only []
  rw [hsplit, List.foldl_append, List.foldl_cons]
  obtain ⟨p1, p2, p3⟩ := foldP ℓ tp I hlong h0 pre t hpre hprefrag hhref hid huniq
  obtain ⟨s1, s2⟩ := anchorStep_at_target (pre.foldl anchorStep t) ℓ tp I h0
    p1 hfrag p2 p3
  exact foldJ ℓ tp (I.take 40) (by rw [List.length_take]; omega)
    (.mk ('#' :: I.take 40)) post (anchorStep (pre.foldl anchorStep t) ℓ) hpost s1 s2

/-- Witness for C2's amended theorem at a 45-character id of `a`s. -/
theorem c2_anchor_truncation_witness :
    getAttrAt (check_anchor_id_length (fixAnchorDoc fixLongId)) [0, 0] ("href") =
      some (.mk ('#' :: fixLongId.data.take 40)) ∧
    getAttrAt (check_anchor_id_length (fixAnchorDoc fixLongId)) [0, 1] ("id") =
      some (.mk (fixLongId.data.take 40)) :=
  c2_anchor_truncation (fixAnchorDoc fixLongId)
    (.elem ("body") [] [
      .elem ("a") [(("href"), ("#" ++ fixLongId))] [.text ("go")],
      .elem ("p") [(("id"), fixLongId)] [.text ("target")]])
    [0] [0, 1] [0, 0] fixLongId.data ("#" ++ fixLongId) [] []
    rfl rfl rfl
    (fun _ h => absurd h (List.not_mem_nil _))
    (fun _ h => absurd h (List.not_mem_nil _))
    rfl rfl (by decide)
    (fun _ h => absurd h (List.not_mem_nil _))
    rfl
    (by
      intro q hq
      rcases q with _ | ⟨i, q⟩
      · exact absurd hq (by decide)
      · rcases i with _ | i
        · rcases q with _ | ⟨j, q⟩
          · exact absurd hq (by decide)
          · rcases j with _ | j
            · rcases q with _ | ⟨u, q⟩
              · exact absurd hq (by decide)
              · rcases u with _ | u
                · rcases q with _ | ⟨w, q⟩
                  · exact absurd hq (by decide)
                  · exact absurd hq (by simp [getAttrAt, getNode, fixAnchorDoc])
                · exact absurd hq (by simp [getAttrAt, getNode, fixAnchorDoc])
            · rcases j with _ | j
              · rcases q with _ | ⟨u, q⟩
                · rfl
                · rcases u with _ | u
                  · rcases q with _ | ⟨w, q⟩
                    · exact absurd hq (by decide)
                    · exact absurd hq (by simp [getAttrAt, getNode, fixAnchorDoc])
                  · exact absurd hq (by simp [getAttrAt, getNode, fixAnchorDoc])
              · exact absurd hq (by simp [getAttrAt, getNode, fixAnchorDoc])
        · exact absurd hq (by simp [getAttrAt, getNode, fixAnchorDoc]))

/-- Claim C2, counterexample.  The pre-pass pattern `#[a-zA-Z0-9-]{41,}`
does not cover `_`, so the link with 46-character id `aa…a_b…b` — longer
than 40 — is never collected: the document comes back unchanged and the id
keeps all 46 characters instead of being truncated to its first 40. -/
theorem c2_counterexample :
    check_anchor_id_length (fixAnchorDoc fixMidId) = fixAnchorDoc fixMidId ∧
    getAttrAt (fixAnchorDoc fixMidId) [0, 1] ("id") = some fixMidId ∧
    40 < fixMidId.length ∧
    fixMidId.data.take 40 ≠ fixMidId.data := by
  refine ⟨rfl, rfl, by decide, by decide⟩

end HtmlDocx
